import Mathlib

/-!
Verification of the résumé-optimizer program (src/main.py) against its
natural-language specification.  The program is shallowly embedded: text is
`List Char`, each regular-expression scan of the source is translated into an
executable character-list scan with the same matching semantics, and the
stateful parts (environment, filesystem, network) are modelled as explicit
parameters and result records.

Modelling conventions, fixed once here:
* Python `\s` is modelled by `isPySpace` (space, tab, newline, carriage
  return, vertical tab, form feed); the inputs of interest are ASCII, so the
  exotic Unicode whitespace of Python is not modelled.
* Python `\w` (used by `\b` word boundaries) is modelled as ASCII
  alphanumeric or underscore; `(?i)` is modelled by `Char.toLower` equality.
  Unicode case folding beyond ASCII is out of scope.
* A Python string is `List Char`; `str.strip()` is `pyStrip`.
-/

namespace ResumeOpt

/-- Models Python's `\s` character class (ASCII part). -/
def isPySpace (c : Char) : Bool :=
  c = ' ' || c = '\t' || c = '\n' || c = '\x0d' || c = '\x0b' || c = '\x0c'

/-- Models Python's `\w` character class (ASCII part), as used by `\b`. -/
def isWordChar (c : Char) : Bool :=
  c.isAlpha || c.isDigit || c = '_'

/-- Case-insensitive character comparison, modelling `(?i)` on ASCII. -/
def ciEqChar (a b : Char) : Bool :=
  a.toLower = b.toLower

/-- Python `str.strip()` with no argument: remove leading and trailing
whitespace. -/
def pyStrip (l : List Char) : List Char :=
  ((l.dropWhile isPySpace).reverse.dropWhile isPySpace).reverse

/-! ## Structure Analyzer (`analyze_resume_structure`, src/main.py lines 113-145) -/
/-- The fixed section vocabulary of `analyze_resume_structure`
(src/main.py lines 123-124). -/
def common_sections : List (List Char) :=
  ["EXPERIENCE".toList, "EDUCATION".toList, "SKILLS".toList, "PROJECTS".toList,
   "CERTIFICATIONS".toList, "SUMMARY".toList, "OBJECTIVE".toList,
   "CONTACT".toList, "REFERENCES".toList, "PUBLICATIONS".toList]

/-- Case-insensitive prefix test: does `w` match the beginning of `l`
character-for-character up to ASCII case? -/
def ciPrefix : List Char → List Char → Bool
  | [], _ => true
  | _ :: _, [] => false
  | a :: as, b :: bs => ciEqChar a b && ciPrefix as bs

/-- Word-boundary condition to the left of a match position: the position is
the start of the text (`prev = none`) or the preceding character is not a
word character. -/
def prevOK : Option Char → Bool
  | none => true
  | some c => !isWordChar c

/-- Word-boundary condition to the right of a match of `w` starting at `l`:
the text ends right after the match or continues with a non-word character. -/
def afterOK (w l : List Char) : Bool :=
  match (l.drop w.length).head? with
  | none => true
  | some c => !isWordChar c

/-- One position of the search for `(?i)\bW\b` (with `W` a purely alphabetic
word, as all vocabulary entries are): `prev` is the character just before
this position (`none` at the start of the text). -/
def wordMatchAt (w : List Char) (prev : Option Char) (l : List Char) : Bool :=
  prevOK prev && ciPrefix w l && afterOK w l

/-- Search for `(?i)\bW\b` anywhere in the text, models
`re.search(r'(?i)\b' + section + r'\b', text)` (src/main.py line 127). -/
def wordSearch (w : List Char) : Option Char → List Char → Bool
  | _, [] => false
  | prev, c :: cs => wordMatchAt w prev (c :: cs) || wordSearch w (some c) cs

/-- The bullet glyph class of src/main.py line 131. -/
def bulletGlyphs : List Char := "•●■◦○◘►▪▫▸▹◆".toList

/-- Count of whitespace-separated words, modelling Python `line.split()`
followed by `len`. -/
def pyWordCount : List Char → Nat
  | [] => 0
  | c :: cs =>
    if isPySpace c then pyWordCount cs
    else 1 + pyWordCount (cs.dropWhile (fun d => !isPySpace d))
  termination_by l => l.length
  decreasing_by
    all_goals simp only [List.length_cons]
    · omega
    · have hdw : ∀ l : List Char,
          (l.dropWhile (fun d => !isPySpace d)).length ≤ l.length := by
        intro l
        induction l with
        | nil => simp
        | cons a as ih =>
          by_cases h : (!isPySpace a) = true
          · simp only [List.dropWhile_cons, h, if_true]
            exact ih.trans (by simp)
          · simp [List.dropWhile_cons, h]
      have := hdw cs
      omega

/-- One position of the search for `(.+)\n(.+)\n(.+)`: three consecutive
nonempty newline-free runs, the first two terminated by a newline (`.` does
not match `\n`; the greedy `(.+)` takes the rest of the line). -/
def tripletAt (l : List Char) : Option (List Char × List Char × List Char) :=
  let t1 := l.takeWhile (fun c => c ≠ '\n')
  if t1.isEmpty then none
  else
    match l.drop t1.length with
    | '\n' :: r1 =>
      let t2 := r1.takeWhile (fun c => c ≠ '\n')
      if t2.isEmpty then none
      else
        match r1.drop t2.length with
        | '\n' :: r2 =>
          let t3 := r2.takeWhile (fun c => c ≠ '\n')
          if t3.isEmpty then none else some (t1, t2, t3)
        | _ => none
    | _ => none

/-- First match of `re.findall(r'(.+)\n(.+)\n(.+)', text)` (only
`table_pattern[0]` is ever consulted by the source, line 136). -/
def findTriplet : List Char → Option (List Char × List Char × List Char)
  | [] => none
  | c :: cs =>
    match tripletAt (c :: cs) with
    | some t => some t
    | none => findTriplet cs

/-- Do the first two characters of the list exist and satisfy `\s`? -/
def twoWS : List Char → Bool
  | c1 :: c2 :: _ => isPySpace c1 && isPySpace c2
  | _ => false

/-- Search for `\n\s{2,}` (src/main.py line 140): a newline followed by two
or more whitespace characters; only the existence of two consecutive
whitespace characters after a newline matters (`{2,}` is greedy but the
search succeeds as soon as two are present). -/
def hasNLWS2 : List Char → Bool
  | [] => false
  | c :: cs => (c = '\n' && twoWS cs) || hasNLWS2 cs

/-- Search for `\n\t` (src/main.py line 142). -/
def hasNLTab : List Char → Bool
  | [] => false
  | c :: cs => (c = '\n' && cs.head? = some '\t') || hasNLTab cs

/-- The structural summary produced by `analyze_resume_structure`. -/
structure ResumeStructure where
  sections : List (List Char)
  has_bullet_points : Bool
  has_tables : Bool
  indentation_style : String
  deriving Repr, DecidableEq

/-- Shallow embedding of `analyze_resume_structure` (src/main.py
lines 113-145). -/
def analyze_resume_structure (text : List Char) : ResumeStructure :=
  { sections := common_sections.filter (fun w => wordSearch w none text)
  , has_bullet_points := text.any (fun c => bulletGlyphs.contains c)
  , has_tables :=
      match findTriplet text with
      | some (t1, t2, t3) =>
        ([pyWordCount t1, pyWordCount t2, pyWordCount t3].dedup.length ≤ 2 : Bool)
      | none => false
  , indentation_style :=
      if hasNLWS2 text then "spaces"
      else if hasNLTab text then "tabs"
      else "unknown" }

/-! ## Document Extractor (`extract_from_pdf`, src/main.py lines 96-111) -/
/-- The page-concatenation loop of `extract_from_pdf` (lines 101-103):
`text = ""` then `text += page.extract_text() + "\n"` for every page. -/
def extract_pages_text (pages : List (List Char)) : List Char :=
  pages.foldl (fun t p => t ++ p ++ ['\n']) []

/-! ## Spec-side predicates for the Structure Analyzer claims

These follow the specification's own words, to be compared with the
definitions translated from the source. -/
/-- Spec's wording for the "spaces" condition of claim C3: some line break is
followed by two or more literal space characters. -/
def specSpacesProp (t : List Char) : Prop :=
  ∃ pre post, t = pre ++ '\n' :: ' ' :: ' ' :: post

/-- Executable form of `specSpacesProp`. -/
def specSpacesB : List Char → Bool
  | [] => false
  | c :: cs =>
    (c = '\n' && (match cs with
                  | c1 :: c2 :: _ => c1 = ' ' && c2 = ' '
                  | _ => false)) || specSpacesB cs

/-- What the source's `\n\s{2,}` test actually detects: some line break is
followed by two or more whitespace characters (spaces, tabs, or further line
breaks in any mix). -/
def codeSpacesProp (t : List Char) : Prop :=
  ∃ pre c1 c2 post, t = pre ++ '\n' :: c1 :: c2 :: post ∧
    isPySpace c1 = true ∧ isPySpace c2 = true

/-- The "tabs" condition: some line break is followed by a tab. -/
def specTabProp (t : List Char) : Prop :=
  ∃ pre post, t = pre ++ '\n' :: '\t' :: post

/-- Spec-side statement for claim C4: `w` occurs in `t` as a case-insensitive
whole word — some decomposition `t = pre ++ mid ++ post` where `mid` equals
`w` up to ASCII case, `pre` ends at a word boundary (empty or a non-word
character last) and `post` starts at one (empty or a non-word character
first). -/
def occursWholeWordCI (w t : List Char) : Prop :=
  ∃ pre mid post, t = pre ++ mid ++ post ∧
    mid.map Char.toLower = w.map Char.toLower ∧
    (pre = [] ∨ ∃ p c, pre = p ++ [c] ∧ isWordChar c = false) ∧
    (post = [] ∨ ∃ c p, post = c :: p ∧ isWordChar c = false)

/-! ## Optimization Client (`optimize_resume_with_gemini`, src/main.py
lines 147-337): the credential gate. -/
/-- Observable outcome of one invocation of the optimization step: the
returned value, the console messages it prints, and whether the remote
generative-text service was contacted at all. -/
structure GeminiOutcome where
  result : Option (List Char)
  printed : List String
  networkAttempted : Bool
  deriving Repr, DecidableEq

/-- The two remediation messages of src/main.py lines 154-155. -/
def missingKeyMessages : List String :=
  ["Error: GEMINI_API_KEY not found in environment variables.",
   "Please add your Gemini API key using the Secrets tool."]

/-- Shallow embedding of the control flow of `optimize_resume_with_gemini`
(src/main.py lines 149-337).  `apiKey` models
`os.environ.get("GEMINI_API_KEY")` (`none` when the variable is absent);
Python's `if not api_key` also treats an empty string as missing.
`serviceReply` models the outcome of the `generate_content` call: `some text`
for a reply, `none` for any exception (network, auth, quota), which the
source catches, prints, and converts to a `None` result.  The prompt-assembly
body is represented only through `serviceReply`; the credential gate runs
before any of it. -/
def optimize_resume_with_gemini (apiKey : Option String)
    (serviceReply : Option (List Char)) : GeminiOutcome :=
  if apiKey = none ∨ apiKey = some "" then
    { result := none, printed := missingKeyMessages, networkAttempted := false }
  else
    match serviceReply with
    | some reply =>
      { result := some reply, printed := [], networkAttempted := true }
    | none =>
      { result := none, printed := ["Error with Google Gemini API: ..."]
      , networkAttempted := true }

/-! ## Orchestrator (`main`, src/main.py lines 8-94) -/
/-- Outcome of one run of `main`: either a normal return (process exit
status 0) or an uncaught exception propagating out of `main` (non-zero exit,
traceback). -/
inductive RunOutcome where
  | finished
  | raised (exn : String)
  deriving Repr, DecidableEq

/-- One filesystem/environment configuration, covering exactly the failure
points `main` encounters: folder and file existence, UTF-8 validity of the
two text files it reads, and the outcomes of the steps whose exceptions are
caught internally (`extract_from_pdf`, the Gemini call, `create_pdf_resume`,
the `pdflatex` subprocess). -/
structure MainEnv where
  resumeFolderExists : Bool
  pdfFilesFound : Bool
  jobDescExists : Bool
  jobDescUtf8 : Bool
  additionalDetailsExists : Bool
  additionalDetailsUtf8 : Bool
  extractedText : Option (List Char)
  geminiKey : Option String
  serviceReply : Option (List Char)
  renderOk : Bool
  latexInvocationRaises : Bool
  latexExitZero : Bool
  deriving Repr, DecidableEq

/-- Shallow embedding of the control flow of `main` (src/main.py lines 8-94).
Each early `return` is a normal exit.  The additional-details read
(lines 39-51) cannot raise a decode error because of its latin-1 fallback.
The job-description read (lines 59-61) has no handler: invalid UTF-8 raises
`UnicodeDecodeError` out of `main`.  `extract_from_pdf`,
`optimize_resume_with_gemini`, `create_pdf_resume` and the subprocess call
catch their own exceptions, so their outcomes never raise here; Python's
`if not x` treats an empty extraction or an empty reply like a failure. -/
def mainRun (e : MainEnv) : RunOutcome :=
  if !e.resumeFolderExists then .finished
  else if !e.pdfFilesFound then .finished
  else if !e.jobDescExists then .finished
  else
    match e.extractedText with
    | none => .finished
    | some t =>
      if t.isEmpty then .finished
      else if !e.jobDescUtf8 then .raised "UnicodeDecodeError"
      else
        match (optimize_resume_with_gemini e.geminiKey e.serviceReply).result with
        | none => .finished
        | some r =>
          if r.isEmpty then .finished
          else .finished

/-! ## Persistence of the reply (`main` lines 70-78 and `create_pdf_resume`
lines 342-346, 455): claim C7. -/
/-- A filesystem as an association list from path to content; the most
recent write of a path shadows older ones. -/
def FileStore := List (List Char × List Char)

def setFile (s : FileStore) (p v : List Char) : FileStore := (p, v) :: s

def getFile (s : FileStore) (p : List Char) : Option (List Char) :=
  (s.find? (fun e => e.1 == p)).map (fun e => e.2)

/-- Python `str.replace(old, new)` for nonempty `old`: every non-overlapping
occurrence, scanning left to right (src/main.py line 344 uses it with
`'.pdf'`). -/
def strReplace (old new : List Char) : List Char → List Char
  | [] => []
  | c :: cs =>
    if old.isPrefixOf (c :: cs) && !old.isEmpty then
      new ++ strReplace old new (List.drop (old.length - 1) cs)
    else c :: strReplace old new cs
  termination_by l => l.length
  decreasing_by
    all_goals simp only [List.length_cons]
    · have := List.length_drop (old.length - 1) cs
      omega
    · omega

/-- The writes performed by `create_pdf_resume` (lines 342-346: re-save the
reply to a sibling `.tex` path unless the destination already contains
`.tex`; line 455: write the rendered artifact to the destination). -/
def create_pdf_writes (s : FileStore) (outputPath content pdfBytes : List Char) :
    FileStore :=
  let s1 :=
    if (".tex").toList <:+: outputPath then s
    else setFile s (strReplace (".pdf").toList (".tex").toList outputPath) content
  setFile s1 outputPath pdfBytes

/-- The persistence phase of `main` (lines 70-78): write the reply to the
`.tex` artifact, then let the renderer perform its writes with the same reply
as content. -/
def persistPhase (s : FileStore) (texPath outputPath reply pdfBytes : List Char) :
    FileStore :=
  create_pdf_writes (setFile s texPath reply) outputPath reply pdfBytes

/-! ## Layout Renderer (`create_pdf_resume`, src/main.py lines 339-460)

Each regular-expression scan of the renderer is translated into a matcher
that, applied at one text position, returns the captured groups (and, where
`finditer`/`sub` continue after the match, the full match length).  The
drawing calls are modelled by recording what text each cell receives. -/
/-- Literal of `re.search(r'\\textbf{\\Huge \\scshape ([^}]+)}', content)`
(line 362). -/
def litName : List Char := ("\\textbf\x7b\\Huge \\scshape ").toList

/-- Literal of `re.search(r'\\small ([^\n]+)', content)` (line 366). -/
def litSmall : List Char := ("\\small ").toList

/-- Literal opening `\section{` of the section pattern (line 381). -/
def litSection : List Char := ("\\section\x7b").toList

/-- Literal `\end{document}`, the alternative lookahead terminator of the
section pattern (line 381). -/
def litEndDoc : List Char := ("\\end\x7bdocument\x7d").toList

/-- Literal of the sub-heading pattern (line 396). -/
def litSubheading : List Char := ("\\resumeSubheading").toList

/-- Literal of the project-heading pattern (line 415). -/
def litProject : List Char := ("\\resumeProjectHeading").toList

/-- Literal opening `\resumeItem{` of the bullet pattern (line 431). -/
def litItem : List Char := ("\\resumeItem\x7b").toList

/-- Literal opening `\textbf{` (lines 421 and 442). -/
def litTextbf : List Char := ("\\textbf\x7b").toList

/-- Literal opening `\emph{` (line 422). -/
def litEmph : List Char := ("\\emph\x7b").toList

/-- Literal opening `\href{` (line 368). -/
def litHref : List Char := ("\\href\x7b").toList

/-- Literal `}{\underline{` in the middle of the href pattern (line 368). -/
def litUnderlineMid : List Char := ("\x7d\x7b\\underline\x7b").toList

/-- Literal `}{{: ` in the middle of the skills pattern (line 442). -/
def litSkillsMid : List Char := ("\x7d\x7b\x7b: ").toList

/-- `re.search`: try the matcher at each position, left to right, and return
the first result. -/
def scanFor {α : Type} (m : List Char → Option α) : List Char → Option α
  | [] => none
  | c :: cs =>
    match m (c :: cs) with
    | some r => some r
    | none => scanFor m cs

/-- `re.finditer`: collect every non-overlapping match, left to right; a
successful matcher reports its full match length `k ≥ 1` and scanning
resumes right after the match. -/
def scanAll {α : Type} (m : List Char → Option (α × Nat)) : List Char → List α
  | [] => []
  | c :: cs =>
    match m (c :: cs) with
    | some (a, k) => a :: scanAll m (List.drop (k - 1) cs)
    | none => scanAll m cs
  termination_by l => l.length
  decreasing_by
    all_goals simp only [List.length_cons]
    · have := List.length_drop (k - 1) cs
      omega
    · omega

/-- `re.sub`: replace every non-overlapping match (which reports its
replacement text and full match length), left to right. -/
def subAll (m : List Char → Option (List Char × Nat)) : List Char → List Char
  | [] => []
  | c :: cs =>
    match m (c :: cs) with
    | some (rep, k) => rep ++ subAll m (List.drop (k - 1) cs)
    | none => c :: subAll m cs
  termination_by l => l.length
  decreasing_by
    all_goals simp only [List.length_cons]
    · have := List.length_drop (k - 1) cs
      omega
    · omega

/-- Matcher of `\\textbf{\\Huge \\scshape ([^}]+)}` at one position: the
literal, then a nonempty brace-free run, then a closing brace. -/
def matchNameAt (l : List Char) : Option (List Char) :=
  if litName.isPrefixOf l then
    let r := l.drop litName.length
    let g := r.takeWhile (fun c => c ≠ '\x7d')
    if g.isEmpty then none
    else if (r.drop g.length).head? = some '\x7d' then some g
    else none
  else none

/-- Matcher of `\\small ([^\n]+)` at one position: the literal, then the
nonempty rest of the line. -/
def matchContactAt (l : List Char) : Option (List Char) :=
  if litSmall.isPrefixOf l then
    let g := (l.drop litSmall.length).takeWhile (fun c => c ≠ '\n')
    if g.isEmpty then none else some g
  else none

/-- Matcher of `\\href{[^}]+}{\\underline{([^}]+)}}` (line 368); the sub
replaces the whole match by the captured underline text. -/
def matchHrefAt (l : List Char) : Option (List Char × Nat) :=
  if litHref.isPrefixOf l then
    let r1 := l.drop litHref.length
    let a := r1.takeWhile (fun c => c ≠ '\x7d')
    if a.isEmpty then none
    else
      let r2 := r1.drop a.length
      if litUnderlineMid.isPrefixOf r2 then
        let r3 := r2.drop litUnderlineMid.length
        let g := r3.takeWhile (fun c => c ≠ '\x7d')
        if g.isEmpty then none
        else if (("\x7d\x7d").toList).isPrefixOf (r3.drop g.length) then
          some (g, litHref.length + a.length + litUnderlineMid.length
            + g.length + 2)
        else none
      else none
  else none

/-- Matcher of the literal replacement `contact.replace('$|$', '|')`
(line 369). -/
def matchDollarPipeAt (l : List Char) : Option (List Char × Nat) :=
  if (("$|$").toList).isPrefixOf l then some (("|").toList, 3) else none

def isSecStart (l : List Char) : Bool := litSection.isPrefixOf l

def isEndDoc (l : List Char) : Bool := litEndDoc.isPrefixOf l

/-- The lazy `(.*?)(?=\\section{|\\end{document})` tail of the section
pattern: split off the shortest body such that the rest begins with one of
the two terminators; no terminator ahead means no match. -/
def findTermSplit : List Char → Option (List Char × List Char)
  | [] => none
  | c :: cs =>
    if isSecStart (c :: cs) || isEndDoc (c :: cs) then some ([], c :: cs)
    else
      match findTermSplit cs with
      | some (b, r) => some (c :: b, r)
      | none => none

/-- Matcher of `\\section{([^}]+)}(.*?)(?=\\section{|\\end{document})`
(line 381, compiled with `re.DOTALL`) at one position.  The zero-width
lookahead is not part of the match, so the reported length stops before the
terminator. -/
def matchSectionAt (l : List Char) : Option ((List Char × List Char) × Nat) :=
  if litSection.isPrefixOf l then
    let r := l.drop litSection.length
    let t := r.takeWhile (fun c => c ≠ '\x7d')
    if t.isEmpty then none
    else
      match r.drop t.length with
      | '\x7d' :: r2 =>
        match findTermSplit r2 with
        | some (body, _) =>
          some ((t, body), litSection.length + t.length + 1 + body.length)
        | none => none
      | _ => none
  else none

/-- One `{([^}]*)}` group: an opening brace, a possibly empty brace-free run,
a closing brace; returns the group and the rest. -/
def parseBraceGroup (l : List Char) : Option (List Char × List Char) :=
  match l with
  | '\x7b' :: r =>
    let g := r.takeWhile (fun c => c ≠ '\x7d')
    (match r.drop g.length with
     | '\x7d' :: rest => some (g, rest)
     | _ => none)
  | _ => none

/-- Matcher of `\\resumeSubheading\s*{([^}]*)}{([^}]*)}{([^}]*)}{([^}]*)}`
(line 396): the literal, optional whitespace, then four adjacent brace
groups. -/
def matchSubheadingAt (l : List Char) :
    Option ((List Char × List Char × List Char × List Char) × Nat) :=
  if litSubheading.isPrefixOf l then
    let r0 := l.drop litSubheading.length
    let ws := r0.takeWhile isPySpace
    let r1 := r0.drop ws.length
    match parseBraceGroup r1 with
    | none => none
    | some (g1, r2) =>
      match parseBraceGroup r2 with
      | none => none
      | some (g2, r3) =>
        match parseBraceGroup r3 with
        | none => none
        | some (g3, r4) =>
          match parseBraceGroup r4 with
          | none => none
          | some (g4, _) =>
            some ((g1, g2, g3, g4),
              litSubheading.length + ws.length + g1.length + g2.length
                + g3.length + g4.length + 8)
  else none

/-- Matcher of `\\resumeProjectHeading\s*{([^}]*)}{([^}]*)}` (line 415). -/
def matchProjectAt (l : List Char) :
    Option ((List Char × List Char) × Nat) :=
  if litProject.isPrefixOf l then
    let r0 := l.drop litProject.length
    let ws := r0.takeWhile isPySpace
    let r1 := r0.drop ws.length
    match parseBraceGroup r1 with
    | none => none
    | some (g1, r2) =>
      match parseBraceGroup r2 with
      | none => none
      | some (g2, _) =>
        some ((g1, g2),
          litProject.length + ws.length + g1.length + g2.length + 4)
  else none

/-- Matcher of `\\resumeItem{([^}]*)}` (line 431). -/
def matchItemAt (l : List Char) : Option (List Char × Nat) :=
  if litItem.isPrefixOf l then
    let g := (l.drop litItem.length).takeWhile (fun c => c ≠ '\x7d')
    match (l.drop litItem.length).drop g.length with
    | '\x7d' :: _ => some (g, litItem.length + g.length + 1)
    | _ => none
  else none

/-- Matcher of `\\textbf{([^}]*)}` used as a cleanup sub (line 421). -/
def matchTextbfAt (l : List Char) : Option (List Char × Nat) :=
  if litTextbf.isPrefixOf l then
    let g := (l.drop litTextbf.length).takeWhile (fun c => c ≠ '\x7d')
    match (l.drop litTextbf.length).drop g.length with
    | '\x7d' :: _ => some (g, litTextbf.length + g.length + 1)
    | _ => none
  else none

/-- Matcher of `\\emph{([^}]*)}` used as a cleanup sub (line 422). -/
def matchEmphAt (l : List Char) : Option (List Char × Nat) :=
  if litEmph.isPrefixOf l then
    let g := (l.drop litEmph.length).takeWhile (fun c => c ≠ '\x7d')
    match (l.drop litEmph.length).drop g.length with
    | '\x7d' :: _ => some (g, litEmph.length + g.length + 1)
    | _ => none
  else none

/-- Matcher of `\\textbf{([^}]*)}{{: ([^}\\]*)}}` (line 442), the skills
category/value pattern. -/
def matchSkillsAt (l : List Char) :
    Option ((List Char × List Char) × Nat) :=
  if litTextbf.isPrefixOf l then
    let r0 := l.drop litTextbf.length
    let g1 := r0.takeWhile (fun c => c ≠ '\x7d')
    let r1 := r0.drop g1.length
    if litSkillsMid.isPrefixOf r1 then
      let r2 := r1.drop litSkillsMid.length
      let g2 := r2.takeWhile (fun c => c ≠ '\x7d' && c ≠ '\\')
      if (("\x7d\x7d").toList).isPrefixOf (r2.drop g2.length) then
        some ((g1, g2), litTextbf.length + g1.length
          + litSkillsMid.length + g2.length + 2)
      else none
    else none
  else none

/-- What one section block draws: the title cell, then per sub-heading the
four field cells, per project heading the cleaned label and date cells, per
bullet the glyph-plus-text row, and for the distinguished skills section the
category/value rows. -/
structure SectionRender where
  title : List Char
  subs : List (List Char × List Char × List Char × List Char)
  projects : List (List Char × List Char)
  bullets : List (List Char)
  skills : List (List Char × List Char)
  deriving Repr, DecidableEq

/-- The rendered artifact: the name cell, the contact cell, and the section
blocks in order. -/
structure RenderedDoc where
  name : List Char
  contact : List Char
  sections : List SectionRender
  deriving Repr, DecidableEq

/-- The per-section body scans of `create_pdf_resume` (lines 380-452):
sub-headings, project headings (with the `\textbf`/`\emph` cleanup subs of
lines 421-422), bullet items, and — only when the title is exactly
`Technical Skills` (line 441) — the skills pairs. -/
def renderSection (p : List Char × List Char) : SectionRender :=
  { title := p.1
  , subs := scanAll matchSubheadingAt p.2
  , projects := (scanAll matchProjectAt p.2).map
      (fun q => (subAll matchEmphAt (subAll matchTextbfAt q.1), q.2))
  , bullets := scanAll matchItemAt p.2
  , skills :=
      if p.1 = ("Technical Skills").toList then scanAll matchSkillsAt p.2
      else [] }

/-- Shallow embedding of the parsing/drawing pipeline of `create_pdf_resume`
(lines 339-460): extract the name (placeholder `"Name"` when the pattern
misses, line 363), extract and clean the contact line (placeholder empty,
lines 366-369), then render each section block.  The pure pipeline is total;
the source wraps it in a `try/except` that turns any raised exception into a
`None` result, so a successfully computed `RenderedDoc` is what a non-`None`
run draws. -/
def create_pdf_resume (content : List Char) : RenderedDoc :=
  { name := (scanFor matchNameAt content).getD (("Name").toList)
  , contact := subAll matchDollarPipeAt
      (subAll matchHrefAt ((scanFor matchContactAt content).getD []))
  , sections := (scanAll matchSectionAt content).map renderSection }

/-- All text drawn for one section, in drawing order (lines 386-450; the
bullet rows draw the glyph then the text, line 437-438; skills rows draw
`category:` then the list, lines 448-450). -/
def sectionText (s : SectionRender) : List Char :=
  s.title
  ++ (s.subs.map (fun q => q.1 ++ q.2.1 ++ q.2.2.1 ++ q.2.2.2)).flatten
  ++ (s.projects.map (fun q => q.1 ++ q.2)).flatten
  ++ (s.bullets.map (fun b => '•' :: b)).flatten
  ++ (s.skills.map (fun q => q.1 ++ (":").toList ++ q.2)).flatten

/-- All text drawn on the artifact, in drawing order (lines 372-452). -/
def docText (d : RenderedDoc) : List Char :=
  d.name ++ d.contact ++ (d.sections.map sectionText).flatten

/-- The marker literals `create_pdf_resume` scans for. -/
def templateMarkers : List (List Char) :=
  [litName, litSmall, litSection, litEndDoc, litSubheading, litProject,
   litItem, litTextbf, litEmph, litHref]

/-- No match of a pattern beginning with the literal `lit` can start inside
`a`, even when `a` is followed by arbitrary text: every nonempty suffix of
`a` neither has `lit` as a prefix nor is a prefix of `lit`. -/
def CannotStart (lit a : List Char) : Prop :=
  ∀ s, s ≠ [] → s <:+ a → ¬ (lit <+: s) ∧ ¬ (s <+: lit)

/-- Executable check for `CannotStart` on concrete chunks. -/
def noStartB (lit a : List Char) : Bool :=
  a.tails.all (fun s => s.isEmpty || (!(lit.isPrefixOf s) && !(s.isPrefixOf lit)))

/-- Characters allowed in the template-grammar fields of claim C6: ordinary
visible text with no LaTeX markup characters (no backslash, no braces, no
dollar sign) and no line break. -/
def plainChar (c : Char) : Bool :=
  c.isAlpha || c.isDigit || c = ' ' || c = '.' || c = ',' || c = '-' ||
  c = ':' || c = '@' || c = '/' || c = '+'

/-- The indentation run `"\n      "` preceding each brace-group line of the
sub-heading block in the template layout. -/
def rS10w : List Char := ("\n      ").toList

/-- Template chunk: document and center-environment opening, up to the name
marker. -/
def rS1 : List Char :=
  ("\\begin\x7bdocument\x7d\n\n\\begin\x7bcenter\x7d\n    ").toList

/-- Template chunk between the name's closing brace and the contact
marker. -/
def rS3a : List Char := (" \\\\ \\vspace\x7b1pt\x7d\n    ").toList

/-- Template chunk: closing the center environment, up to the section
marker. -/
def rS5a : List Char := ("\\end\x7bcenter\x7d\n\n").toList

/-- Template chunk: list opening after the section title. -/
def rS8 : List Char := ("\n  \\resumeSubHeadingListStart\n    ").toList

/-- Template chunk: item-list opening between the sub-heading block and the
bullet. -/
def rS14a : List Char := ("\n      \\resumeItemListStart\n        ").toList

/-- Template chunk: item-list and sub-heading-list closing after the
bullet. -/
def rS16a : List Char :=
  ("\n      \\resumeItemListEnd\n  \\resumeSubHeadingListEnd\n\n").toList

/-- A reply that exactly matches the template grammar: one document header
(name `n`, contact line `c`), one section (title `t`) containing one
sub-heading block (`o`, `loc`, `r`, `d`, laid out on two indented lines as in
the template) and one bullet item (`b`), closed by the end-of-document
marker. -/
def mkReply (n c t o loc r d b : List Char) : List Char :=
  rS1 ++ litName ++ n ++ ('\x7d' :: rS3a) ++ litSmall ++ c ++
  ('\n' :: rS5a) ++ litSection ++ t ++ ('\x7d' :: rS8) ++ litSubheading ++
  rS10w ++ ('\x7b' :: o) ++ ('\x7d' :: '\x7b' :: loc) ++ ('\x7d' :: rS10w) ++
  ('\x7b' :: r) ++ ('\x7d' :: '\x7b' :: d) ++ ('\x7d' :: rS14a) ++
  litItem ++ b ++ ('\x7d' :: rS16a) ++ litEndDoc

/-- The section body the renderer extracts from `mkReply`: everything between
the title's closing brace and the end-of-document marker. -/
def mkBody (o loc r d b : List Char) : List Char :=
  rS8 ++ litSubheading ++ rS10w ++ ('\x7b' :: o) ++ ('\x7d' :: '\x7b' :: loc)
  ++ ('\x7d' :: rS10w) ++ ('\x7b' :: r) ++ ('\x7d' :: '\x7b' :: d) ++
  ('\x7d' :: rS14a) ++ litItem ++ b ++ ('\x7d' :: rS16a)

/-- Part 1 of the prompt f-string text. -/
def promptPart1 : List Char :=
  ("\n        I need to optimize a resume for this job description and convert it to LaTeX format.\n\n        JOB DESCRIPTION:\n        \x7bjob_description\x7d\n\n        CURRENT RESUME CONTENT:\n        \x7bresume_text\x7d\n\n        ADDITIONAL DETAILS ABOUT THE PERSON (incorporate if relevant):\n        \x7badditional_details\x7d\n\n        RESUME STRUCTURE ANALYSIS:\n        - Sections detected: \x7bsections_str\x7d\n        - Uses bullet points: \x7b\"Yes\" if resume_structure[\"has_bullet_points\"] else \"No\"\x7d\n        - Contains tables: \x7b\"Yes\" if resume_structure[\"has_tables\"] else \"No\"\x7d\n").toList

/-- Part 2 of the prompt f-string text. -/
def promptPart2 : List Char :=
  ("        - Indentation style: \x7bresume_structure[\"indentation_style\"]\x7d\n\n        Convert this resume to the following LaTeX format and structure:\n\n\\begin\x7bdocument\x7d\n\n%----------HEADING----------\n% \\begin\x7btabular*\x7d\x7b\\textwidth\x7d\x7bl@\x7b\\extracolsep\x7b\\fill\x7d\x7dr\x7d\n%   \\textbf\x7b\\href\x7bhttp://sourabhbajaj.com/\x7d\x7b\\Large Sourabh Bajaj\x7d\x7d & Email : \\href\x7bmailto:sourabh@sourabhbajaj.com\x7d\x7bsourabh@sourabhbajaj.com\x7d\\\\\n%   \\href\x7bhttp://sourabhbajaj.com/\x7d\x7bhttp://www.sourabhbajaj.com\x7d & Mobile : +1-123-456-7890 \\\\\n% \\end\x7btabular*\x7d\n\n\\begin\x7bcenter\x7d\n    \\textbf\x7b\\Huge \\scshape Jake Ryan\x7d \\\\ \\vspace\x7b1pt\x7d\n").toList

/-- Part 3 of the prompt f-string text. -/
def promptPart3 : List Char :=
  ("    \\small 123-456-7890 $|$ \\href\x7bmailto:x@x.com\x7d\x7b\\underline\x7bjake@su.edu\x7d\x7d $|$ \n    \\href\x7bhttps://linkedin.com/in/...\x7d\x7b\\underline\x7blinkedin.com/in/jake\x7d\x7d $|$\n    \\href\x7bhttps://github.com/...\x7d\x7b\\underline\x7bgithub.com/jake\x7d\x7d\n\\end\x7bcenter\x7d\n\n\n%-----------EDUCATION-----------\n\\section\x7bEducation\x7d\n  \\resumeSubHeadingListStart\n    \\resumeSubheading\n      \x7bSouthwestern University\x7d\x7bGeorgetown, TX\x7d\n      \x7bBachelor of Arts in Computer Science, Minor in Business\x7d\x7bAug. 2018 -- May 2021\x7d\n    \\resumeSubheading\n      \x7bBlinn College\x7d\x7bBryan, TX\x7d\n      \x7bAssociate\x27s in Liberal Arts\x7d\x7bAug. 2014 -- May 2018\x7d\n").toList

/-- Part 4 of the prompt f-string text. -/
def promptPart4 : List Char :=
  ("  \\resumeSubHeadingListEnd\n\n\n%-----------EXPERIENCE-----------\n\\section\x7bExperience\x7d\n  \\resumeSubHeadingListStart\n\n    \\resumeSubheading\n      \x7bUndergraduate Research Assistant\x7d\x7bJune 2020 -- Present\x7d\n      \x7bTexas A\\&M University\x7d\x7bCollege Station, TX\x7d\n      \\resumeItemListStart\n        \\resumeItem\x7bDeveloped a REST API using FastAPI and PostgreSQL to store data from learning management systems\x7d\n        \\resumeItem\x7bDeveloped a full-stack web application using Flask, React, PostgreSQL and Docker to analyze GitHub data\x7d\n").toList

/-- Part 5 of the prompt f-string text. -/
def promptPart5 : List Char :=
  ("        \\resumeItem\x7bExplored ways to visualize GitHub collaboration in a classroom setting\x7d\n      \\resumeItemListEnd\n      \n% -----------Multiple Positions Heading-----------\n%    \\resumeSubSubheading\n%     \x7bSoftware Engineer I\x7d\x7bOct 2014 - Sep 2016\x7d\n%     \\resumeItemListStart\n%        \\resumeItem\x7bApache Beam\x7d\n%          \x7bApache Beam is a unified model for defining both batch and streaming data-parallel processing pipelines\x7d\n%     \\resumeItemListEnd\n%    \\resumeSubHeadingListEnd\n%-------------------------------------------\n\n    \\resumeSubheading\n").toList

/-- Part 6 of the prompt f-string text. -/
def promptPart6 : List Char :=
  ("      \x7bInformation Technology Support Specialist\x7d\x7bSep. 2018 -- Present\x7d\n      \x7bSouthwestern University\x7d\x7bGeorgetown, TX\x7d\n      \\resumeItemListStart\n        \\resumeItem\x7bCommunicate with managers to set up campus computers used on campus\x7d\n        \\resumeItem\x7bAssess and troubleshoot computer problems brought by students, faculty and staff\x7d\n        \\resumeItem\x7bMaintain upkeep of computers, classroom equipment, and 200 printers across campus\x7d\n    \\resumeItemListEnd\n\n    \\resumeSubheading\n      \x7bArtificial Intelligence Research Assistant\x7d\x7bMay 2019 -- July 2019\x7d\n").toList

/-- Part 7 of the prompt f-string text. -/
def promptPart7 : List Char :=
  ("      \x7bSouthwestern University\x7d\x7bGeorgetown, TX\x7d\n      \\resumeItemListStart\n        \\resumeItem\x7bExplored methods to generate video game dungeons based off of \\emph\x7bThe Legend of Zelda\x7d\x7d\n        \\resumeItem\x7bDeveloped a game in Java to test the generated dungeons\x7d\n        \\resumeItem\x7bContributed 50K+ lines of code to an established codebase via Git\x7d\n        \\resumeItem\x7bConducted  a human subject study to determine which video game dungeon generation technique is enjoyable\x7d\n        \\resumeItem\x7bWrote an 8-page paper and gave multiple presentations on-campus\x7d\n").toList

/-- Part 8 of the prompt f-string text. -/
def promptPart8 : List Char :=
  ("        \\resumeItem\x7bPresented virtually to the World Conference on Computational Intelligence\x7d\n      \\resumeItemListEnd\n\n  \\resumeSubHeadingListEnd\n\n\n%-----------PROJECTS-----------\n\\section\x7bProjects\x7d\n    \\resumeSubHeadingListStart\n      \\resumeProjectHeading\n          \x7b\\textbf\x7bGitlytics\x7d $|$ \\emph\x7bPython, Flask, React, PostgreSQL, Docker\x7d\x7d\x7bJune 2020 -- Present\x7d\n          \\resumeItemListStart\n            \\resumeItem\x7bDeveloped a full-stack web application using with Flask serving a REST API with React as the frontend\x7d\n").toList

/-- Part 9 of the prompt f-string text. -/
def promptPart9 : List Char :=
  ("            \\resumeItem\x7bImplemented GitHub OAuth to get data from user’s repositories\x7d\n            \\resumeItem\x7bVisualized GitHub data to show collaboration\x7d\n            \\resumeItem\x7bUsed Celery and Redis for asynchronous tasks\x7d\n          \\resumeItemListEnd\n      \\resumeProjectHeading\n          \x7b\\textbf\x7bSimple Paintball\x7d $|$ \\emph\x7bSpigot API, Java, Maven, TravisCI, Git\x7d\x7d\x7bMay 2018 -- May 2020\x7d\n          \\resumeItemListStart\n            \\resumeItem\x7bDeveloped a Minecraft server plugin to entertain kids during free time for a previous job\x7d\n").toList

/-- Part 10 of the prompt f-string text. -/
def promptPart10 : List Char :=
  ("            \\resumeItem\x7bPublished plugin to websites gaining 2K+ downloads and an average 4.5/5-star review\x7d\n            \\resumeItem\x7bImplemented continuous delivery using TravisCI to build the plugin upon new a release\x7d\n            \\resumeItem\x7bCollaborated with Minecraft server administrators to suggest features and get feedback about the plugin\x7d\n          \\resumeItemListEnd\n    \\resumeSubHeadingListEnd\n\n\n\n%\n%-----------PROGRAMMING SKILLS-----------\n\\section\x7bTechnical Skills\x7d\n \\begin\x7bitemize\x7d[leftmargin=0.15in, label=\x7b\x7d]\n    \\small\x7b\\item\x7b\n").toList

/-- Part 11 of the prompt f-string text. -/
def promptPart11 : List Char :=
  ("     \\textbf\x7bLanguages\x7d\x7b: Java, Python, C/C++, SQL (Postgres), JavaScript, HTML/CSS, R\x7d \\\\\n     \\textbf\x7bFrameworks\x7d\x7b: React, Node.js, Flask, JUnit, WordPress, Material-UI, FastAPI\x7d \\\\\n     \\textbf\x7bDeveloper Tools\x7d\x7b: Git, Docker, TravisCI, Google Cloud Platform, VS Code, Visual Studio, PyCharm, IntelliJ, Eclipse\x7d \\\\\n     \\textbf\x7bLibraries\x7d\x7b: pandas, NumPy, Matplotlib\x7d\n    \x7d\x7d\n \\end\x7bitemize\x7d\n\n\n%-------------------------------------------\n\\end\x7bdocument\x7d\n\n        Fill in all the sections with the optimized content from the original resume. \n        Make sure to:\n").toList

/-- Part 12 of the prompt f-string text. -/
def promptPart12 : List Char :=
  ("        1. Format the resume to match the exact LaTeX structure shown above\n        2. Extract and optimize the content from the original resume\n        3. Match keywords and phrases from the job description\n        4. Highlight skills and experiences that align with the job requirements\n        5. Focus on achievements and metrics relevant to the position\n        6. Use powerful action verbs and quantifiable achievements\n        7. Include ALL sections from the LaTeX template, filling them with appropriate content\n\n").toList

/-- Part 13 of the prompt f-string text. -/
def promptPart13 : List Char :=
  ("        Return ONLY the LaTeX code for the resume. Do not include any explanations or markdown.\n        ").toList

/-- The verbatim text of the prompt f-string literal of
`optimize_resume_with_gemini` (src/main.py lines 179-324: everything
between the opening `f` triple-quote and the closing one), reproduced
character-for-character as the concatenation of the parts below.  As
Python source this f-string is ill-formed: fields like `\x7btabular*\x7d`
and `\x7b: ...\x7d` are not valid replacement-field expressions, so the
interpreter rejects main.py with a SyntaxError before anything runs
(claim C9). -/
def promptFStringBody : List Char :=
  promptPart1 ++ promptPart2 ++ promptPart3 ++ promptPart4 ++ promptPart5 ++ promptPart6 ++ promptPart7 ++ promptPart8 ++ promptPart9 ++ promptPart10 ++ promptPart11 ++ promptPart12 ++ promptPart13

/-- Shallow embedding of the leading-name extraction of
`optimize_resume_with_gemini` (src/main.py lines 165-166):
`re.search(r'^([A-Za-z\s]+)', resume_text)` is anchored at the start (no
MULTILINE flag), and the greedy class takes the longest prefix of ASCII
letters and whitespace — including line breaks; the match is then
`str.strip()`ed, with the placeholder `"Name"` when the first character is
outside the class. -/
def extract_name (resume_text : List Char) : List Char :=
  let g := resume_text.takeWhile (fun c => c.isAlpha || isPySpace c)
  if g.isEmpty then ("Name").toList else pyStrip g

/-- A Python identifier over ASCII: the form of the f-string replacement
fields that interpolate in-scope variables (such as `job_description`). -/
def isPyIdentifier (l : List Char) : Bool :=
  match l with
  | [] => false
  | c :: cs => (c.isAlpha || c = '_') && cs.all (fun d => d.isAlpha || d.isDigit || d = '_')

end ResumeOpt

/-- A fully healthy configuration except that the job-description file's
bytes are not valid UTF-8. -/
def c2BadEnv : ResumeOpt.MainEnv :=
  { resumeFolderExists := true, pdfFilesFound := true, jobDescExists := true
  , jobDescUtf8 := false, additionalDetailsExists := false
  , additionalDetailsUtf8 := true, extractedText := some ("resume text").toList
  , geminiKey := some "key", serviceReply := some ("reply").toList
  , renderOk := true, latexInvocationRaises := false, latexExitZero := true }

set_option maxRecDepth 4000

namespace ResumeOpt

theorem ciPrefix_iff (w : List Char) : ∀ l : List Char, ciPrefix w l = true ↔
    ∃ mid post, l = mid ++ post ∧ mid.map Char.toLower = w.map Char.toLower := by
  induction w with
  | nil =>
    intro l
    simp only [ciPrefix, List.map_nil, true_iff]
    exact ⟨[], l, rfl, rfl⟩
  | cons a as ih =>
    intro l
    cases l with
    | nil =>
      simp only [ciPrefix, Bool.false_eq_true, false_iff]
      rintro ⟨mid, post, heq, hmap⟩
      rcases List.append_eq_nil.mp heq.symm with ⟨rfl, -⟩
      simp at hmap
    | cons b bs =>
      simp only [ciPrefix, Bool.and_eq_true, ih]
      constructor
      · rintro ⟨hab, mid, post, rfl, hmap⟩
        refine ⟨b :: mid, post, rfl, ?_⟩
        simp only [ciEqChar, decide_eq_true_eq] at hab
        simp [hmap, hab.symm]
      · rintro ⟨mid, post, heq, hmap⟩
        cases mid with
        | nil => simp at hmap
        | cons m0 mid2 =>
          simp only [List.cons_append, List.cons.injEq] at heq
          obtain ⟨rfl, rfl⟩ := heq
          simp only [List.map_cons, List.cons.injEq] at hmap
          exact ⟨by simp [ciEqChar, hmap.1], mid2, post, rfl, hmap.2⟩

theorem wordMatchAt_iff (w : List Char) (prev : Option Char) (l : List Char) :
    wordMatchAt w prev l = true ↔
      (prevOK prev = true ∧ ∃ mid post, l = mid ++ post ∧
        mid.map Char.toLower = w.map Char.toLower ∧
        (post = [] ∨ ∃ c p, post = c :: p ∧ isWordChar c = false)) := by
  simp only [wordMatchAt, Bool.and_eq_true, ciPrefix_iff, and_assoc]
  constructor
  · rintro ⟨hprev, ⟨mid, post, rfl, hmap⟩, hafter⟩
    have hlen : mid.length = w.length := by
      have := congrArg List.length hmap
      simpa using this
    have hdrop : (mid ++ post).drop w.length = post := by
      rw [← hlen]; exact List.drop_left mid post
    refine ⟨hprev, mid, post, rfl, hmap, ?_⟩
    unfold afterOK at hafter
    rw [hdrop] at hafter
    cases post with
    | nil => exact Or.inl rfl
    | cons c p =>
      simp only [List.head?_cons] at hafter
      exact Or.inr ⟨c, p, rfl, by simpa using hafter⟩
  · rintro ⟨hprev, mid, post, rfl, hmap, hpost⟩
    have hlen : mid.length = w.length := by
      have := congrArg List.length hmap
      simpa using this
    have hdrop : (mid ++ post).drop w.length = post := by
      rw [← hlen]; exact List.drop_left mid post
    refine ⟨hprev, ⟨mid, post, rfl, hmap⟩, ?_⟩
    unfold afterOK
    rw [hdrop]
    rcases hpost with rfl | ⟨c, p, rfl, hc⟩
    · rfl
    · simpa using hc

theorem wordSearch_iff (w : List Char) (hw : w ≠ []) :
    ∀ (prev : Option Char) (t : List Char), wordSearch w prev t = true ↔
      ∃ pre mid post, t = pre ++ mid ++ post ∧
        mid.map Char.toLower = w.map Char.toLower ∧
        ((pre = [] ∧ prevOK prev = true) ∨
          ∃ p c, pre = p ++ [c] ∧ isWordChar c = false) ∧
        (post = [] ∨ ∃ c p, post = c :: p ∧ isWordChar c = false) := by
  intro prev t
  induction t generalizing prev with
  | nil =>
    simp only [wordSearch, Bool.false_eq_true, false_iff]
    rintro ⟨pre, mid, post, heq, hmap, -, -⟩
    rcases List.append_eq_nil.mp heq.symm with ⟨h1, h2⟩
    rcases List.append_eq_nil.mp h1 with ⟨-, rfl⟩
    rw [List.map_nil] at hmap
    exact hw (List.map_eq_nil_iff.mp hmap.symm)
  | cons c cs ih =>
    simp only [wordSearch, Bool.or_eq_true, wordMatchAt_iff]
    constructor
    · rintro (⟨hprev, mid, post, heq, hmap, hpost⟩ | hrec)
      · exact ⟨[], mid, post, by simpa using heq, hmap, Or.inl ⟨rfl, hprev⟩, hpost⟩
      · obtain ⟨pre2, mid, post, heq, hmap, hpre, hpost⟩ := (ih (some c)).mp hrec
        refine ⟨c :: pre2, mid, post, by simp [heq], hmap, ?_, hpost⟩
        rcases hpre with ⟨rfl, hprevc⟩ | ⟨p, d, rfl, hd⟩
        · exact Or.inr ⟨[], c, rfl, by simpa [prevOK] using hprevc⟩
        · exact Or.inr ⟨c :: p, d, rfl, hd⟩
    · rintro ⟨pre, mid, post, heq, hmap, hpre, hpost⟩
      rcases hpre with ⟨rfl, hprev⟩ | ⟨p, d, rfl, hd⟩
      · exact Or.inl ⟨hprev, mid, post, by simpa using heq, hmap, hpost⟩
      · right
        cases p with
        | nil =>
          simp only [List.nil_append, List.cons_append, List.cons.injEq] at heq
          obtain ⟨rfl, rfl⟩ := heq
          exact (ih (some c)).mpr
            ⟨[], mid, post, rfl, hmap, Or.inl ⟨rfl, by simp [prevOK, hd]⟩, hpost⟩
        | cons e p2 =>
          simp only [List.cons_append, List.append_assoc, List.cons.injEq] at heq
          obtain ⟨rfl, rfl⟩ := heq
          exact (ih (some c)).mpr
            ⟨p2 ++ [d], mid, post, by simp [List.append_assoc], hmap,
              Or.inr ⟨p2, d, rfl, hd⟩, hpost⟩

theorem hasNLWS2_iff (t : List Char) : hasNLWS2 t = true ↔ codeSpacesProp t := by
  constructor
  · intro h
    induction t with
    | nil => simp [hasNLWS2] at h
    | cons c cs ih =>
      simp only [hasNLWS2, Bool.or_eq_true, Bool.and_eq_true, decide_eq_true_eq] at h
      rcases h with ⟨hc, hws⟩ | h
      · subst hc
        match cs, hws with
        | c1 :: c2 :: rest, hws =>
          simp only [twoWS, Bool.and_eq_true] at hws
          exact ⟨[], c1, c2, rest, rfl, hws.1, hws.2⟩
      · obtain ⟨pre, c1, c2, post, hEq, h1, h2⟩ := ih h
        exact ⟨c :: pre, c1, c2, post, by simp [hEq], h1, h2⟩
  · rintro ⟨pre, c1, c2, post, hEq, h1, h2⟩
    subst hEq
    induction pre with
    | nil => simp [hasNLWS2, twoWS, h1, h2]
    | cons p ps ih => simp [hasNLWS2, ih]

theorem hasNLTab_iff (t : List Char) : hasNLTab t = true ↔ specTabProp t := by
  constructor
  · intro h
    induction t with
    | nil => simp [hasNLTab] at h
    | cons c cs ih =>
      simp only [hasNLTab, Bool.or_eq_true, Bool.and_eq_true, decide_eq_true_eq] at h
      rcases h with ⟨hc, hh⟩ | h
      · subst hc
        cases cs with
        | nil => simp at hh
        | cons d ds =>
          simp only [List.head?_cons, Option.some.injEq] at hh
          subst hh
          exact ⟨[], ds, rfl⟩
      · obtain ⟨pre, post, hEq⟩ := ih h
        exact ⟨c :: pre, post, by simp [hEq]⟩
  · rintro ⟨pre, post, hEq⟩
    subst hEq
    induction pre with
    | nil => simp [hasNLTab]
    | cons p ps ih => simp [hasNLTab, ih]

theorem specSpacesB_iff (t : List Char) : specSpacesB t = true ↔ specSpacesProp t := by
  constructor
  · intro h
    induction t with
    | nil => simp [specSpacesB] at h
    | cons c cs ih =>
      simp only [specSpacesB, Bool.or_eq_true, Bool.and_eq_true, decide_eq_true_eq] at h
      rcases h with ⟨hc, hws⟩ | h
      · subst hc
        match cs, hws with
        | c1 :: c2 :: rest, hws =>
          simp only [Bool.and_eq_true, decide_eq_true_eq] at hws
          exact ⟨[], rest, by simp [hws.1, hws.2]⟩
      · obtain ⟨pre, post, hEq⟩ := ih h
        exact ⟨c :: pre, post, by simp [hEq]⟩
  · rintro ⟨pre, post, hEq⟩
    subst hEq
    induction pre with
    | nil => simp [specSpacesB]
    | cons p ps ih => simp [specSpacesB, ih]

theorem getFile_setFile_same (s : FileStore) (p v : List Char) :
    getFile (setFile s p v) p = some v := by
  simp [getFile, setFile, List.find?]

theorem getFile_setFile_other (s : FileStore) (p q v : List Char) (h : q ≠ p) :
    getFile (setFile s q v) p = getFile s p := by
  simp only [getFile, setFile, List.find?]
  rw [beq_eq_false_iff_ne.mpr h]

theorem prefix_append_cases {lit a y : List Char} (h : lit <+: a ++ y) :
    lit <+: a ∨ a <+: lit := by
  induction a generalizing lit with
  | nil => exact Or.inr List.nil_prefix
  | cons c cs ih =>
    cases lit with
    | nil => exact Or.inl List.nil_prefix
    | cons d ds =>
      rw [List.cons_append, List.cons_prefix_cons] at h
      obtain ⟨rfl, h2⟩ := h
      rcases ih h2 with h3 | h3
      · exact Or.inl (List.cons_prefix_cons.mpr ⟨rfl, h3⟩)
      · exact Or.inr (List.cons_prefix_cons.mpr ⟨rfl, h3⟩)

theorem matchNameAt_imp (l : List Char) (h : matchNameAt l ≠ none) :
    litName <+: l := by
  by_cases hp : litName.isPrefixOf l
  · exact List.isPrefixOf_iff_prefix.mp hp
  · exact absurd (by simp [matchNameAt, hp]) h

theorem matchContactAt_imp (l : List Char) (h : matchContactAt l ≠ none) :
    litSmall <+: l := by
  by_cases hp : litSmall.isPrefixOf l
  · exact List.isPrefixOf_iff_prefix.mp hp
  · exact absurd (by simp [matchContactAt, hp]) h

theorem matchSectionAt_imp (l : List Char) (h : matchSectionAt l ≠ none) :
    litSection <+: l := by
  by_cases hp : litSection.isPrefixOf l
  · exact List.isPrefixOf_iff_prefix.mp hp
  · exact absurd (by simp [matchSectionAt, hp]) h

theorem scanFor_eq_none {α : Type} (m : List Char → Option α) (lit : List Char)
    (hm : ∀ l, m l ≠ none → lit <+: l) :
    ∀ content, ¬ (lit <:+: content) → scanFor m content = none := by
  intro content h
  induction content with
  | nil => rfl
  | cons c cs ih =>
    have h1 : m (c :: cs) = none := by
      by_contra hne
      exact h ((hm _ hne).isInfix)
    simp only [scanFor, h1]
    exact ih (fun hi => h (List.infix_cons hi))

theorem scanAll_eq_nil {α : Type} (m : List Char → Option (α × Nat))
    (lit : List Char) (hm : ∀ l, m l ≠ none → lit <+: l) :
    ∀ content, ¬ (lit <:+: content) → scanAll m content = [] := by
  intro content h
  induction content with
  | nil => simp [scanAll]
  | cons c cs ih =>
    have h1 : m (c :: cs) = none := by
      by_contra hne
      exact h ((hm _ hne).isInfix)
    rw [scanAll]
    simp only [h1]
    exact ih (fun hi => h (List.infix_cons hi))

theorem cannotStart_of_noStartB {lit a : List Char} (h : noStartB lit a = true) :
    CannotStart lit a := by
  intro s hs hsuf
  have hmem : s ∈ a.tails := (List.mem_tails s a).mpr hsuf
  have hall := List.all_eq_true.mp h s hmem
  simp only [Bool.or_eq_true, Bool.and_eq_true, Bool.not_eq_true'] at hall
  rcases hall with he | ⟨h1, h2⟩
  · exact absurd (List.isEmpty_iff.mp he) hs
  · refine ⟨fun hp => ?_, fun hp => ?_⟩
    · exact absurd (List.isPrefixOf_iff_prefix.mpr hp) (by simp [h1])
    · exact absurd (List.isPrefixOf_iff_prefix.mpr hp) (by simp [h2])

theorem cannotStart_of_plain {lit a : List Char} (c0 : Char)
    (hlit : lit.head? = some c0) (ha : ∀ x ∈ a, x ≠ c0) : CannotStart lit a := by
  intro s hs hsuf
  obtain ⟨d, ds, rfl⟩ := List.exists_cons_of_ne_nil hs
  have hd : d ∈ a := hsuf.mem (List.mem_cons_self d ds)
  have hdc : d ≠ c0 := ha d hd
  cases lit with
  | nil => simp at hlit
  | cons e es =>
    simp only [List.head?_cons, Option.some.injEq] at hlit
    subst hlit
    refine ⟨fun hp => ?_, fun hp => ?_⟩
    · rw [List.cons_prefix_cons] at hp
      exact hdc hp.1.symm
    · rw [List.cons_prefix_cons] at hp
      exact hdc hp.1

theorem cannotStart_cons {lit : List Char} {c : Char} {cs : List Char}
    (h : CannotStart lit (c :: cs)) : CannotStart lit cs :=
  fun s hs hsuf => h s hs (hsuf.trans (List.suffix_cons c cs))

theorem suffix_append_cases {s a b : List Char} (h : s <:+ a ++ b) :
    s <:+ b ∨ ∃ sa, s = sa ++ b ∧ sa <:+ a := by
  induction a generalizing s with
  | nil => exact Or.inl (by simpa using h)
  | cons c cs ih =>
    rw [List.cons_append, List.suffix_cons_iff] at h
    rcases h with rfl | h2
    · exact Or.inr ⟨c :: cs, by simp, List.suffix_refl _⟩
    · rcases ih h2 with h3 | ⟨sa, rfl, hsa⟩
      · exact Or.inl h3
      · exact Or.inr ⟨sa, rfl, hsa.trans (List.suffix_cons c cs)⟩

theorem cannotStart_append {lit a b : List Char} (ha : CannotStart lit a)
    (hb : CannotStart lit b) : CannotStart lit (a ++ b) := by
  intro s hs hsuf
  rcases suffix_append_cases hsuf with hsb | ⟨sa, rfl, hsa⟩
  · exact hb s hs hsb
  · by_cases hsaem : sa = []
    · subst hsaem
      have hbb := hb b (by simpa using hs) (List.suffix_refl b)
      simpa using hbb
    · have h1 := ha sa hsaem hsa
      refine ⟨fun hp => ?_, fun hp => ?_⟩
      · rcases prefix_append_cases hp with h2 | h2
        · exact h1.1 h2
        · exact h1.2 h2
      · exact h1.2 ((List.prefix_append sa b).trans hp)

theorem scanFor_nil {α : Type} (m : List Char → Option α) : scanFor m [] = none := rfl

theorem scanAll_nil {α : Type} (m : List Char → Option (α × Nat)) :
    scanAll m [] = [] := by
  rw [scanAll]

theorem subAll_nil (m : List Char → Option (List Char × Nat)) :
    subAll m [] = [] := by
  rw [subAll]

theorem scanFor_skip {α : Type} (m : List Char → Option α) (lit : List Char)
    (hm : ∀ l, m l ≠ none → lit <+: l) :
    ∀ a y, CannotStart lit a → scanFor m (a ++ y) = scanFor m y := by
  intro a
  induction a with
  | nil => intro y _; rfl
  | cons c cs ih =>
    intro y hca
    have h1 : m (c :: (cs ++ y)) = none := by
      by_contra hne
      have hp := hm _ hne
      have hca1 := hca (c :: cs) (by simp) (List.suffix_refl _)
      rcases prefix_append_cases (a := c :: cs) (y := y) hp with h2 | h2
      · exact hca1.1 h2
      · exact hca1.2 h2
    simp only [List.cons_append, scanFor, List.append_eq, h1]
    exact ih y (cannotStart_cons hca)

theorem scanAll_skip {α : Type} (m : List Char → Option (α × Nat))
    (lit : List Char) (hm : ∀ l, m l ≠ none → lit <+: l) :
    ∀ a y, CannotStart lit a → scanAll m (a ++ y) = scanAll m y := by
  intro a
  induction a with
  | nil => intro y _; rfl
  | cons c cs ih =>
    intro y hca
    have h1 : m (c :: (cs ++ y)) = none := by
      by_contra hne
      have hp := hm _ hne
      have hca1 := hca (c :: cs) (by simp) (List.suffix_refl _)
      rcases prefix_append_cases (a := c :: cs) (y := y) hp with h2 | h2
      · exact hca1.1 h2
      · exact hca1.2 h2
    rw [List.cons_append, scanAll]
    simp only [List.append_eq, h1]
    exact ih y (cannotStart_cons hca)

theorem scanAll_of_cannotStart {α : Type} (m : List Char → Option (α × Nat))
    (lit : List Char) (hm : ∀ l, m l ≠ none → lit <+: l)
    (a : List Char) (ha : CannotStart lit a) : scanAll m a = [] := by
  have := scanAll_skip m lit hm a [] ha
  simpa [scanAll_nil] using this

theorem scanFor_of_cannotStart {α : Type} (m : List Char → Option α)
    (lit : List Char) (hm : ∀ l, m l ≠ none → lit <+: l)
    (a : List Char) (ha : CannotStart lit a) : scanFor m a = none := by
  have := scanFor_skip m lit hm a [] ha
  simpa [scanFor_nil] using this

theorem scanFor_append_hit {α : Type} (m : List Char → Option α)
    (lit : List Char) (hm : ∀ l, m l ≠ none → lit <+: l)
    (pre : List Char) (hpre : CannotStart lit pre)
    (w : List Char) (r : α) (hhit : m w = some r) (hw : w ≠ []) :
    scanFor m (pre ++ w) = some r := by
  rw [scanFor_skip m lit hm pre w hpre]
  obtain ⟨c, cs, rfl⟩ := List.exists_cons_of_ne_nil hw
  simp only [scanFor, hhit]

theorem scanAll_cons_some {α : Type} (m : List Char → Option (α × Nat))
    (c : Char) (cs : List Char) (a : α) (k : Nat)
    (h : m (c :: cs) = some (a, k)) :
    scanAll m (c :: cs) = a :: scanAll m (List.drop (k - 1) cs) := by
  rw [scanAll]
  simp only [h]

theorem scanAll_append_hit {α : Type} (m : List Char → Option (α × Nat))
    (lit : List Char) (hm : ∀ l, m l ≠ none → lit <+: l)
    (pre : List Char) (hpre : CannotStart lit pre)
    (x rest : List Char) (a : α)
    (hhit : m (x ++ rest) = some (a, x.length)) (hx : x ≠ []) :
    scanAll m (pre ++ (x ++ rest)) = a :: scanAll m rest := by
  rw [scanAll_skip m lit hm pre _ hpre]
  obtain ⟨c, cs, rfl⟩ := List.exists_cons_of_ne_nil hx
  rw [List.cons_append, scanAll_cons_some m c (cs ++ rest) a _ hhit]
  simp [List.drop_left]

theorem scanAll_cons_none {α : Type} (m : List Char → Option (α × Nat))
    (c : Char) (cs : List Char) (h : m (c :: cs) = none) :
    scanAll m (c :: cs) = scanAll m cs := by
  rw [scanAll]
  simp only [h]

theorem subAll_id_of (m : List Char → Option (List Char × Nat)) (c0 : Char)
    (hm : ∀ l r, m l = some r → l.head? = some c0) :
    ∀ x, (∀ y ∈ x, y ≠ c0) → subAll m x = x := by
  intro x hx
  induction x with
  | nil => exact subAll_nil m
  | cons c cs ih =>
    have h1 : m (c :: cs) = none := by
      cases hmc : m (c :: cs) with
      | none => rfl
      | some r =>
        have := hm _ _ hmc
        simp only [List.head?_cons, Option.some.injEq] at this
        exact absurd this (hx c (by simp))
    rw [subAll]
    simp only [h1]
    rw [ih (fun y hy => hx y (by simp [hy]))]

theorem findTermSplit_skip :
    ∀ a y, CannotStart litSection a → CannotStart litEndDoc a →
      findTermSplit (a ++ y)
        = (findTermSplit y).map (fun p => (a ++ p.1, p.2)) := by
  intro a
  induction a with
  | nil =>
    intro y _ _
    cases h : findTermSplit y with
    | none => simp [h]
    | some p => simp [h]
  | cons c cs ih =>
    intro y h1 h2
    have hsec : isSecStart (c :: (cs ++ y)) = false := by
      by_contra hb
      have hp : litSection <+: (c :: cs) ++ y :=
        List.isPrefixOf_iff_prefix.mp (by simpa [isSecStart] using hb)
      have hca1 := h1 (c :: cs) (by simp) (List.suffix_refl _)
      rcases prefix_append_cases hp with h3 | h3
      · exact hca1.1 h3
      · exact hca1.2 h3
    have hend : isEndDoc (c :: (cs ++ y)) = false := by
      by_contra hb
      have hp : litEndDoc <+: (c :: cs) ++ y :=
        List.isPrefixOf_iff_prefix.mp (by simpa [isEndDoc] using hb)
      have hca1 := h2 (c :: cs) (by simp) (List.suffix_refl _)
      rcases prefix_append_cases hp with h3 | h3
      · exact hca1.1 h3
      · exact hca1.2 h3
    rw [List.cons_append, findTermSplit]
    simp only [hsec, hend, Bool.or_self, if_false]
    rw [ih y (cannotStart_cons h1) (cannotStart_cons h2)]
    cases h : findTermSplit y with
    | none => simp
    | some p => simp

theorem takeWhile_append_all {p : Char → Bool} {xs : List Char}
    (h : ∀ c ∈ xs, p c = true) (ys : List Char) :
    (xs ++ ys).takeWhile p = xs ++ ys.takeWhile p := by
  induction xs with
  | nil => simp
  | cons c cs ih =>
    simp only [List.cons_append, List.takeWhile_cons, h c (by simp), if_true]
    rw [ih (fun x hx => h x (by simp [hx]))]

theorem plainChar_ne_of {c d : Char} (h : plainChar c = true)
    (hd : plainChar d = false) : c ≠ d := by
  intro he
  rw [he, hd] at h
  exact Bool.false_ne_true h

theorem plain_imp_ne (f : List Char) (hf : ∀ x ∈ f, plainChar x = true)
    (d : Char) (hd : plainChar d = false) : ∀ x ∈ f, x ≠ d :=
  fun x hx => plainChar_ne_of (hf x hx) hd

theorem takeWhile_plain_stop (p : Char → Bool) (f : List Char)
    (hf : ∀ x ∈ f, p x = true) (c : Char) (hc : p c = false) (z : List Char) :
    ((f ++ (c :: z)).takeWhile p) = f := by
  rw [takeWhile_append_all hf]
  simp [List.takeWhile_cons, hc]

theorem matchNameAt_hit (n z : List Char) (hn : ∀ x ∈ n, plainChar x = true)
    (hne : n ≠ []) :
    matchNameAt (litName ++ (n ++ ('\x7d' :: z))) = some n := by
  have hpre : litName.isPrefixOf (litName ++ (n ++ ('\x7d' :: z))) = true :=
    List.isPrefixOf_iff_prefix.mpr (List.prefix_append _ _)
  have htw : ((n ++ ('\x7d' :: z)).takeWhile (fun c => (c ≠ '\x7d' : Bool))) = n :=
    takeWhile_plain_stop _ n
      (fun x hx => by simpa using plainChar_ne_of (hn x hx) (by decide))
      _ (by decide) z
  have hem : n.isEmpty = false := by
    cases n with
    | nil => exact absurd rfl hne
    | cons a as => rfl
  unfold matchNameAt
  simp only [hpre, if_true, List.drop_left, htw, hem, Bool.false_eq_true,
    if_false, List.drop_left]
  simp [List.head?]

theorem matchContactAt_hit (c z : List Char) (hc : ∀ x ∈ c, plainChar x = true)
    (hne : c ≠ []) :
    matchContactAt (litSmall ++ (c ++ ('\n' :: z))) = some c := by
  have hpre : litSmall.isPrefixOf (litSmall ++ (c ++ ('\n' :: z))) = true :=
    List.isPrefixOf_iff_prefix.mpr (List.prefix_append _ _)
  have htw : ((c ++ ('\n' :: z)).takeWhile (fun x => (x ≠ '\n' : Bool))) = c :=
    takeWhile_plain_stop _ c
      (fun x hx => by simpa using plainChar_ne_of (hc x hx) (by decide))
      _ (by decide) z
  have hem : c.isEmpty = false := by
    cases c with
    | nil => exact absurd rfl hne
    | cons a as => rfl
  unfold matchContactAt
  simp only [hpre, if_true, List.drop_left, htw, hem, Bool.false_eq_true,
    if_false]

theorem matchSectionAt_hit (t z body rest : List Char)
    (ht : ∀ x ∈ t, plainChar x = true) (hne : t ≠ [])
    (hsplit : findTermSplit z = some (body, rest)) :
    matchSectionAt (litSection ++ (t ++ ('\x7d' :: z)))
      = some ((t, body), litSection.length + t.length + 1 + body.length) := by
  have hpre : litSection.isPrefixOf (litSection ++ (t ++ ('\x7d' :: z))) = true :=
    List.isPrefixOf_iff_prefix.mpr (List.prefix_append _ _)
  have htw : ((t ++ ('\x7d' :: z)).takeWhile (fun c => (c ≠ '\x7d' : Bool))) = t :=
    takeWhile_plain_stop _ t
      (fun x hx => by simpa using plainChar_ne_of (ht x hx) (by decide))
      _ (by decide) z
  have hem : t.isEmpty = false := by
    cases t with
    | nil => exact absurd rfl hne
    | cons a as => rfl
  unfold matchSectionAt
  simp only [hpre, if_true, List.drop_left, htw, hem, Bool.false_eq_true,
    if_false, hsplit]

theorem matchItemAt_hit (b z : List Char) (hb : ∀ x ∈ b, plainChar x = true) :
    matchItemAt (litItem ++ (b ++ ('\x7d' :: z)))
      = some (b, litItem.length + b.length + 1) := by
  have hpre : litItem.isPrefixOf (litItem ++ (b ++ ('\x7d' :: z))) = true :=
    List.isPrefixOf_iff_prefix.mpr (List.prefix_append _ _)
  have htw : ((b ++ ('\x7d' :: z)).takeWhile (fun c => (c ≠ '\x7d' : Bool))) = b :=
    takeWhile_plain_stop _ b
      (fun x hx => by simpa using plainChar_ne_of (hb x hx) (by decide))
      _ (by decide) z
  unfold matchItemAt
  simp only [hpre, if_true, List.drop_left, htw]

theorem parseBraceGroup_hit (g rest : List Char)
    (hg : ∀ x ∈ g, plainChar x = true) :
    parseBraceGroup ('\x7b' :: (g ++ ('\x7d' :: rest))) = some (g, rest) := by
  have htw : ((g ++ ('\x7d' :: rest)).takeWhile (fun c => (c ≠ '\x7d' : Bool))) = g :=
    takeWhile_plain_stop _ g
      (fun x hx => by simpa using plainChar_ne_of (hg x hx) (by decide))
      _ (by decide) rest
  unfold parseBraceGroup
  simp only [htw, List.drop_left]

theorem matchSubheadingAt_fail (o loc restw : List Char)
    (ho : ∀ x ∈ o, plainChar x = true) (hl : ∀ x ∈ loc, plainChar x = true) :
    matchSubheadingAt (litSubheading ++ (rS10w ++ ('\x7b' ::
      (o ++ ('\x7d' :: ('\x7b' :: (loc ++ ('\x7d' :: ('\n' :: restw)))))))))
      = none := by
  have hpre : litSubheading.isPrefixOf (litSubheading ++ (rS10w ++ ('\x7b' ::
      (o ++ ('\x7d' :: ('\x7b' :: (loc ++ ('\x7d' :: ('\n' :: restw)))))))))
      = true :=
    List.isPrefixOf_iff_prefix.mpr (List.prefix_append _ _)
  have hws : ((rS10w ++ ('\x7b' ::
      (o ++ ('\x7d' :: ('\x7b' :: (loc ++ ('\x7d' :: ('\n' :: restw)))))))).takeWhile
        isPySpace) = rS10w :=
    takeWhile_plain_stop _ rS10w (by decide) _ (by decide) _
  unfold matchSubheadingAt
  simp only [hpre, if_true, List.drop_left, hws,
    parseBraceGroup_hit o _ ho, parseBraceGroup_hit loc _ hl]
  rfl

theorem cannotStart_nil (lit : List Char) : CannotStart lit [] := by
  intro s hs hsuf
  exact absurd (List.suffix_nil.mp hsuf) hs

theorem scanFor_hit {α : Type} (m : List Char → Option α) (w : List Char)
    (r : α) (hhit : m w = some r) (hw : w ≠ []) : scanFor m w = some r := by
  obtain ⟨c, cs, rfl⟩ := List.exists_cons_of_ne_nil hw
  simp only [scanFor, hhit]

theorem scanAll_hit {α : Type} (m : List Char → Option (α × Nat))
    (x rest : List Char) (a : α)
    (hhit : m (x ++ rest) = some (a, x.length)) (hx : x ≠ []) :
    scanAll m (x ++ rest) = a :: scanAll m rest := by
  obtain ⟨c, cs, rfl⟩ := List.exists_cons_of_ne_nil hx
  rw [List.cons_append, scanAll_cons_some m c (cs ++ rest) a _ hhit]
  simp [List.drop_left]

theorem matchSubheadingAt_imp (l : List Char) (h : matchSubheadingAt l ≠ none) :
    litSubheading <+: l := by
  by_cases hp : litSubheading.isPrefixOf l
  · exact List.isPrefixOf_iff_prefix.mp hp
  · exact absurd (by simp [matchSubheadingAt, hp]) h

theorem matchProjectAt_imp (l : List Char) (h : matchProjectAt l ≠ none) :
    litProject <+: l := by
  by_cases hp : litProject.isPrefixOf l
  · exact List.isPrefixOf_iff_prefix.mp hp
  · exact absurd (by simp [matchProjectAt, hp]) h

theorem matchItemAt_imp (l : List Char) (h : matchItemAt l ≠ none) :
    litItem <+: l := by
  by_cases hp : litItem.isPrefixOf l
  · exact List.isPrefixOf_iff_prefix.mp hp
  · exact absurd (by simp [matchItemAt, hp]) h

theorem matchSkillsAt_imp (l : List Char) (h : matchSkillsAt l ≠ none) :
    litTextbf <+: l := by
  by_cases hp : litTextbf.isPrefixOf l
  · exact List.isPrefixOf_iff_prefix.mp hp
  · exact absurd (by simp [matchSkillsAt, hp]) h

theorem matchHrefAt_head (l : List Char) (r : List Char × Nat)
    (h : matchHrefAt l = some r) : l.head? = some '\\' := by
  by_cases hp : litHref.isPrefixOf l
  · obtain ⟨t2, rfl⟩ := List.isPrefixOf_iff_prefix.mp hp
    rfl
  · simp [matchHrefAt, hp] at h

theorem matchDollarPipeAt_head (l : List Char) (r : List Char × Nat)
    (h : matchDollarPipeAt l = some r) : l.head? = some '$' := by
  unfold matchDollarPipeAt at h
  split at h
  · next hc =>
    obtain ⟨t2, rfl⟩ := List.isPrefixOf_iff_prefix.mp hc
    rfl
  · exact absurd h (by simp)

theorem mkReply_name (n c t o loc r d b : List Char)
    (hn : ∀ x ∈ n, plainChar x = true) (hnne : n ≠ []) :
    scanFor matchNameAt (mkReply n c t o loc r d b) = some n := by
  unfold mkReply
  simp only [List.append_assoc]
  rw [scanFor_skip matchNameAt litName matchNameAt_imp rS1 _
    (cannotStart_of_noStartB (by decide))]
  exact scanFor_hit _ _ _ (matchNameAt_hit n _ hn hnne) (List.cons_ne_nil _ _)

theorem mkReply_contact (n c t o loc r d b : List Char)
    (hn : ∀ x ∈ n, plainChar x = true)
    (hc : ∀ x ∈ c, plainChar x = true) (hcne : c ≠ []) :
    scanFor matchContactAt (mkReply n c t o loc r d b) = some c := by
  unfold mkReply
  simp only [List.append_assoc]
  rw [scanFor_skip matchContactAt litSmall matchContactAt_imp rS1 _
    (cannotStart_of_noStartB (by decide))]
  rw [scanFor_skip matchContactAt litSmall matchContactAt_imp litName _
    (cannotStart_of_noStartB (by decide))]
  rw [scanFor_skip matchContactAt litSmall matchContactAt_imp n _
    (cannotStart_of_plain '\\' rfl (plain_imp_ne n hn '\\' (by decide)))]
  rw [scanFor_skip matchContactAt litSmall matchContactAt_imp ('\x7d' :: rS3a) _
    (cannotStart_of_noStartB (by decide))]
  exact scanFor_hit _ _ _ (matchContactAt_hit c _ hc hcne) (List.cons_ne_nil _ _)

theorem cannotStart_pre_field {lit : List Char} (pre f : List Char)
    (hpre : noStartB lit pre = true) (hhd : lit.head? = some '\\')
    (hf : ∀ x ∈ f, plainChar x = true) : CannotStart lit (pre ++ f) :=
  cannotStart_append (cannotStart_of_noStartB hpre)
    (cannotStart_of_plain '\\' hhd (plain_imp_ne f hf '\\' (by decide)))

theorem mkBody_split (o loc r d b : List Char)
    (ho : ∀ x ∈ o, plainChar x = true) (hl : ∀ x ∈ loc, plainChar x = true)
    (hr : ∀ x ∈ r, plainChar x = true) (hd : ∀ x ∈ d, plainChar x = true)
    (hb : ∀ x ∈ b, plainChar x = true) :
    findTermSplit (mkBody o loc r d b ++ litEndDoc)
      = some (mkBody o loc r d b, litEndDoc) := by
  unfold mkBody
  simp only [List.append_assoc]
  rw [findTermSplit_skip rS8 _
    (cannotStart_of_noStartB (by decide)) (cannotStart_of_noStartB (by decide))]
  rw [findTermSplit_skip litSubheading _
    (cannotStart_of_noStartB (by decide)) (cannotStart_of_noStartB (by decide))]
  rw [findTermSplit_skip rS10w _
    (cannotStart_of_noStartB (by decide)) (cannotStart_of_noStartB (by decide))]
  rw [findTermSplit_skip ('\x7b' :: o) _
    (cannotStart_pre_field ['\x7b'] o (by decide) rfl ho)
    (cannotStart_pre_field ['\x7b'] o (by decide) rfl ho)]
  rw [findTermSplit_skip ('\x7d' :: '\x7b' :: loc) _
    (cannotStart_pre_field ['\x7d', '\x7b'] loc (by decide) rfl hl)
    (cannotStart_pre_field ['\x7d', '\x7b'] loc (by decide) rfl hl)]
  rw [findTermSplit_skip ('\x7d' :: rS10w) _
    (cannotStart_of_noStartB (by decide)) (cannotStart_of_noStartB (by decide))]
  rw [findTermSplit_skip ('\x7b' :: r) _
    (cannotStart_pre_field ['\x7b'] r (by decide) rfl hr)
    (cannotStart_pre_field ['\x7b'] r (by decide) rfl hr)]
  rw [findTermSplit_skip ('\x7d' :: '\x7b' :: d) _
    (cannotStart_pre_field ['\x7d', '\x7b'] d (by decide) rfl hd)
    (cannotStart_pre_field ['\x7d', '\x7b'] d (by decide) rfl hd)]
  rw [findTermSplit_skip ('\x7d' :: rS14a) _
    (cannotStart_of_noStartB (by decide)) (cannotStart_of_noStartB (by decide))]
  rw [findTermSplit_skip litItem _
    (cannotStart_of_noStartB (by decide)) (cannotStart_of_noStartB (by decide))]
  rw [findTermSplit_skip b _
    (cannotStart_pre_field [] b (by decide) rfl hb)
    (cannotStart_pre_field [] b (by decide) rfl hb)]
  rw [findTermSplit_skip ('\x7d' :: rS16a) _
    (cannotStart_of_noStartB (by decide)) (cannotStart_of_noStartB (by decide))]
  rw [show findTermSplit litEndDoc = some ([], litEndDoc) from by decide]
  simp [List.append_assoc]

theorem mkReply_sections (n c t o loc r d b : List Char)
    (hn : ∀ x ∈ n, plainChar x = true)
    (hc : ∀ x ∈ c, plainChar x = true)
    (ht : ∀ x ∈ t, plainChar x = true) (htne : t ≠ [])
    (ho : ∀ x ∈ o, plainChar x = true) (hl : ∀ x ∈ loc, plainChar x = true)
    (hr : ∀ x ∈ r, plainChar x = true) (hd : ∀ x ∈ d, plainChar x = true)
    (hb : ∀ x ∈ b, plainChar x = true) :
    scanAll matchSectionAt (mkReply n c t o loc r d b)
      = [(t, mkBody o loc r d b)] := by
  have hsplit : findTermSplit (mkBody o loc r d b ++ litEndDoc)
      = some (mkBody o loc r d b, litEndDoc) := mkBody_split o loc r d b ho hl hr hd hb
  have h1 := matchSectionAt_hit t (mkBody o loc r d b ++ litEndDoc)
    (mkBody o loc r d b) litEndDoc ht htne hsplit
  have hsh : litSection ++ (t ++ ('\x7d' :: (mkBody o loc r d b ++ litEndDoc)))
      = (litSection ++ (t ++ ('\x7d' :: mkBody o loc r d b))) ++ litEndDoc := by
    simp [List.append_assoc]
  rw [hsh] at h1
  have hlen : litSection.length + t.length + 1 + (mkBody o loc r d b).length
      = (litSection ++ (t ++ ('\x7d' :: mkBody o loc r d b))).length := by
    simp [List.length_append]
    omega
  rw [hlen] at h1
  unfold mkReply
  simp only [List.append_assoc]
  rw [scanAll_skip matchSectionAt litSection matchSectionAt_imp rS1 _
    (cannotStart_of_noStartB (by decide))]
  rw [scanAll_skip matchSectionAt litSection matchSectionAt_imp litName _
    (cannotStart_of_noStartB (by decide))]
  rw [scanAll_skip matchSectionAt litSection matchSectionAt_imp n _
    (cannotStart_pre_field [] n (by decide) rfl hn)]
  rw [scanAll_skip matchSectionAt litSection matchSectionAt_imp ('\x7d' :: rS3a) _
    (cannotStart_of_noStartB (by decide))]
  rw [scanAll_skip matchSectionAt litSection matchSectionAt_imp litSmall _
    (cannotStart_of_noStartB (by decide))]
  rw [scanAll_skip matchSectionAt litSection matchSectionAt_imp c _
    (cannotStart_pre_field [] c (by decide) rfl hc)]
  rw [scanAll_skip matchSectionAt litSection matchSectionAt_imp ('\n' :: rS5a) _
    (cannotStart_of_noStartB (by decide))]
  have hsh2 : litSection ++ (t ++ (('\x7d' :: rS8) ++ (litSubheading ++ (rS10w ++
      (('\x7b' :: o) ++ (('\x7d' :: '\x7b' :: loc) ++ (('\x7d' :: rS10w) ++
      (('\x7b' :: r) ++ (('\x7d' :: '\x7b' :: d) ++ (('\x7d' :: rS14a) ++
      (litItem ++ (b ++ (('\x7d' :: rS16a) ++ litEndDoc)))))))))))))
      = (litSection ++ (t ++ ('\x7d' :: mkBody o loc r d b))) ++ litEndDoc := by
    unfold mkBody
    simp [List.append_assoc]
  rw [hsh2]
  rw [scanAll_hit matchSectionAt _ _ _ h1 (List.cons_ne_nil _ _)]
  rw [scanAll_of_cannotStart matchSectionAt litSection matchSectionAt_imp
    litEndDoc (cannotStart_of_noStartB (by decide))]

theorem matchSubheadingAt_fail2 (o loc rest : List Char)
    (ho : ∀ x ∈ o, plainChar x = true) (hl : ∀ x ∈ loc, plainChar x = true) :
    matchSubheadingAt (litSubheading ++ (rS10w ++ (('\x7b' :: o) ++
      (('\x7d' :: '\x7b' :: loc) ++ (('\x7d' :: rS10w) ++ rest)))))
      = none :=
  matchSubheadingAt_fail o loc _ ho hl

theorem scanAll_fail_skip {α : Type} (m : List Char → Option (α × Nat))
    (lit : List Char) (hm : ∀ l, m l ≠ none → lit <+: l)
    (litT : List Char) (c0 : Char) (hlitT : lit = c0 :: litT)
    (hT : CannotStart lit litT)
    (w : List Char) (hfail : m (lit ++ w) = none) :
    scanAll m (lit ++ w) = scanAll m w := by
  subst hlitT
  rw [List.cons_append]
  rw [scanAll_cons_none m c0 (litT ++ w) (by exact hfail)]
  exact scanAll_skip m (c0 :: litT) hm litT w hT

theorem mkBody_subs (o loc r d b : List Char)
    (ho : ∀ x ∈ o, plainChar x = true) (hl : ∀ x ∈ loc, plainChar x = true)
    (hr : ∀ x ∈ r, plainChar x = true) (hd : ∀ x ∈ d, plainChar x = true)
    (hb : ∀ x ∈ b, plainChar x = true) :
    scanAll matchSubheadingAt (mkBody o loc r d b) = [] := by
  unfold mkBody
  simp only [List.append_assoc]
  rw [scanAll_skip matchSubheadingAt litSubheading matchSubheadingAt_imp rS8 _
    (cannotStart_of_noStartB (by decide))]
  rw [scanAll_fail_skip matchSubheadingAt litSubheading matchSubheadingAt_imp
    (("resumeSubheading").toList) '\\' rfl (cannotStart_of_noStartB (by decide))
    _ (matchSubheadingAt_fail2 o loc _ ho hl)]
  rw [scanAll_skip matchSubheadingAt litSubheading matchSubheadingAt_imp rS10w _
    (cannotStart_of_noStartB (by decide))]
  rw [scanAll_skip matchSubheadingAt litSubheading matchSubheadingAt_imp
    ('\x7b' :: o) _ (cannotStart_pre_field ['\x7b'] o (by decide) rfl ho)]
  rw [scanAll_skip matchSubheadingAt litSubheading matchSubheadingAt_imp
    ('\x7d' :: '\x7b' :: loc) _
    (cannotStart_pre_field ['\x7d', '\x7b'] loc (by decide) rfl hl)]
  rw [scanAll_skip matchSubheadingAt litSubheading matchSubheadingAt_imp
    ('\x7d' :: rS10w) _ (cannotStart_of_noStartB (by decide))]
  rw [scanAll_skip matchSubheadingAt litSubheading matchSubheadingAt_imp
    ('\x7b' :: r) _ (cannotStart_pre_field ['\x7b'] r (by decide) rfl hr)]
  rw [scanAll_skip matchSubheadingAt litSubheading matchSubheadingAt_imp
    ('\x7d' :: '\x7b' :: d) _
    (cannotStart_pre_field ['\x7d', '\x7b'] d (by decide) rfl hd)]
  rw [scanAll_skip matchSubheadingAt litSubheading matchSubheadingAt_imp
    ('\x7d' :: rS14a) _ (cannotStart_of_noStartB (by decide))]
  rw [scanAll_skip matchSubheadingAt litSubheading matchSubheadingAt_imp
    litItem _ (cannotStart_of_noStartB (by decide))]
  rw [scanAll_skip matchSubheadingAt litSubheading matchSubheadingAt_imp b _
    (cannotStart_pre_field [] b (by decide) rfl hb)]
  exact scanAll_of_cannotStart matchSubheadingAt litSubheading
    matchSubheadingAt_imp _ (cannotStart_of_noStartB (by decide))

theorem mkBody_projects (o loc r d b : List Char)
    (ho : ∀ x ∈ o, plainChar x = true) (hl : ∀ x ∈ loc, plainChar x = true)
    (hr : ∀ x ∈ r, plainChar x = true) (hd : ∀ x ∈ d, plainChar x = true)
    (hb : ∀ x ∈ b, plainChar x = true) :
    scanAll matchProjectAt (mkBody o loc r d b) = [] := by
  unfold mkBody
  simp only [List.append_assoc]
  rw [scanAll_skip matchProjectAt litProject matchProjectAt_imp rS8 _
    (cannotStart_of_noStartB (by decide))]
  rw [scanAll_skip matchProjectAt litProject matchProjectAt_imp litSubheading _
    (cannotStart_of_noStartB (by decide))]
  rw [scanAll_skip matchProjectAt litProject matchProjectAt_imp rS10w _
    (cannotStart_of_noStartB (by decide))]
  rw [scanAll_skip matchProjectAt litProject matchProjectAt_imp ('\x7b' :: o) _
    (cannotStart_pre_field ['\x7b'] o (by decide) rfl ho)]
  rw [scanAll_skip matchProjectAt litProject matchProjectAt_imp
    ('\x7d' :: '\x7b' :: loc) _
    (cannotStart_pre_field ['\x7d', '\x7b'] loc (by decide) rfl hl)]
  rw [scanAll_skip matchProjectAt litProject matchProjectAt_imp
    ('\x7d' :: rS10w) _ (cannotStart_of_noStartB (by decide))]
  rw [scanAll_skip matchProjectAt litProject matchProjectAt_imp ('\x7b' :: r) _
    (cannotStart_pre_field ['\x7b'] r (by decide) rfl hr)]
  rw [scanAll_skip matchProjectAt litProject matchProjectAt_imp
    ('\x7d' :: '\x7b' :: d) _
    (cannotStart_pre_field ['\x7d', '\x7b'] d (by decide) rfl hd)]
  rw [scanAll_skip matchProjectAt litProject matchProjectAt_imp
    ('\x7d' :: rS14a) _ (cannotStart_of_noStartB (by decide))]
  rw [scanAll_skip matchProjectAt litProject matchProjectAt_imp litItem _
    (cannotStart_of_noStartB (by decide))]
  rw [scanAll_skip matchProjectAt litProject matchProjectAt_imp b _
    (cannotStart_pre_field [] b (by decide) rfl hb)]
  exact scanAll_of_cannotStart matchProjectAt litProject matchProjectAt_imp _
    (cannotStart_of_noStartB (by decide))

theorem mkBody_skills (o loc r d b : List Char)
    (ho : ∀ x ∈ o, plainChar x = true) (hl : ∀ x ∈ loc, plainChar x = true)
    (hr : ∀ x ∈ r, plainChar x = true) (hd : ∀ x ∈ d, plainChar x = true)
    (hb : ∀ x ∈ b, plainChar x = true) :
    scanAll matchSkillsAt (mkBody o loc r d b) = [] := by
  unfold mkBody
  simp only [List.append_assoc]
  rw [scanAll_skip matchSkillsAt litTextbf matchSkillsAt_imp rS8 _
    (cannotStart_of_noStartB (by decide))]
  rw [scanAll_skip matchSkillsAt litTextbf matchSkillsAt_imp litSubheading _
    (cannotStart_of_noStartB (by decide))]
  rw [scanAll_skip matchSkillsAt litTextbf matchSkillsAt_imp rS10w _
    (cannotStart_of_noStartB (by decide))]
  rw [scanAll_skip matchSkillsAt litTextbf matchSkillsAt_imp ('\x7b' :: o) _
    (cannotStart_pre_field ['\x7b'] o (by decide) rfl ho)]
  rw [scanAll_skip matchSkillsAt litTextbf matchSkillsAt_imp
    ('\x7d' :: '\x7b' :: loc) _
    (cannotStart_pre_field ['\x7d', '\x7b'] loc (by decide) rfl hl)]
  rw [scanAll_skip matchSkillsAt litTextbf matchSkillsAt_imp
    ('\x7d' :: rS10w) _ (cannotStart_of_noStartB (by decide))]
  rw [scanAll_skip matchSkillsAt litTextbf matchSkillsAt_imp ('\x7b' :: r) _
    (cannotStart_pre_field ['\x7b'] r (by decide) rfl hr)]
  rw [scanAll_skip matchSkillsAt litTextbf matchSkillsAt_imp
    ('\x7d' :: '\x7b' :: d) _
    (cannotStart_pre_field ['\x7d', '\x7b'] d (by decide) rfl hd)]
  rw [scanAll_skip matchSkillsAt litTextbf matchSkillsAt_imp
    ('\x7d' :: rS14a) _ (cannotStart_of_noStartB (by decide))]
  rw [scanAll_skip matchSkillsAt litTextbf matchSkillsAt_imp litItem _
    (cannotStart_of_noStartB (by decide))]
  rw [scanAll_skip matchSkillsAt litTextbf matchSkillsAt_imp b _
    (cannotStart_pre_field [] b (by decide) rfl hb)]
  exact scanAll_of_cannotStart matchSkillsAt litTextbf matchSkillsAt_imp _
    (cannotStart_of_noStartB (by decide))

theorem mkBody_items (o loc r d b : List Char)
    (ho : ∀ x ∈ o, plainChar x = true) (hl : ∀ x ∈ loc, plainChar x = true)
    (hr : ∀ x ∈ r, plainChar x = true) (hd : ∀ x ∈ d, plainChar x = true)
    (hb : ∀ x ∈ b, plainChar x = true) :
    scanAll matchItemAt (mkBody o loc r d b) = [b] := by
  have h1 := matchItemAt_hit b rS16a hb
  have hsh : litItem ++ (b ++ ('\x7d' :: rS16a))
      = (litItem ++ (b ++ ['\x7d'])) ++ rS16a := by
    simp [List.append_assoc]
  rw [hsh] at h1
  have hlen : litItem.length + b.length + 1
      = (litItem ++ (b ++ ['\x7d'])).length := by
    simp only [List.length_append, List.length_cons, List.length_nil]
    omega
  rw [hlen] at h1
  unfold mkBody
  simp only [List.append_assoc]
  rw [scanAll_skip matchItemAt litItem matchItemAt_imp rS8 _
    (cannotStart_of_noStartB (by decide))]
  rw [scanAll_skip matchItemAt litItem matchItemAt_imp litSubheading _
    (cannotStart_of_noStartB (by decide))]
  rw [scanAll_skip matchItemAt litItem matchItemAt_imp rS10w _
    (cannotStart_of_noStartB (by decide))]
  rw [scanAll_skip matchItemAt litItem matchItemAt_imp ('\x7b' :: o) _
    (cannotStart_pre_field ['\x7b'] o (by decide) rfl ho)]
  rw [scanAll_skip matchItemAt litItem matchItemAt_imp
    ('\x7d' :: '\x7b' :: loc) _
    (cannotStart_pre_field ['\x7d', '\x7b'] loc (by decide) rfl hl)]
  rw [scanAll_skip matchItemAt litItem matchItemAt_imp ('\x7d' :: rS10w) _
    (cannotStart_of_noStartB (by decide))]
  rw [scanAll_skip matchItemAt litItem matchItemAt_imp ('\x7b' :: r) _
    (cannotStart_pre_field ['\x7b'] r (by decide) rfl hr)]
  rw [scanAll_skip matchItemAt litItem matchItemAt_imp
    ('\x7d' :: '\x7b' :: d) _
    (cannotStart_pre_field ['\x7d', '\x7b'] d (by decide) rfl hd)]
  rw [scanAll_skip matchItemAt litItem matchItemAt_imp ('\x7d' :: rS14a) _
    (cannotStart_of_noStartB (by decide))]
  have hsh2 : litItem ++ (b ++ ('\x7d' :: rS16a))
      = (litItem ++ (b ++ ['\x7d'])) ++ rS16a := by
    simp [List.append_assoc]
  rw [hsh2]
  rw [scanAll_hit matchItemAt _ _ _ h1 (List.cons_ne_nil _ _)]
  rw [scanAll_of_cannotStart matchItemAt litItem matchItemAt_imp rS16a
    (cannotStart_of_noStartB (by decide))]

theorem create_pdf_resume_mkReply (n c t o loc r d b : List Char)
    (hn : ∀ x ∈ n, plainChar x = true) (hnne : n ≠ [])
    (hc : ∀ x ∈ c, plainChar x = true) (hcne : c ≠ [])
    (ht : ∀ x ∈ t, plainChar x = true) (htne : t ≠ [])
    (ho : ∀ x ∈ o, plainChar x = true) (hl : ∀ x ∈ loc, plainChar x = true)
    (hr : ∀ x ∈ r, plainChar x = true) (hd : ∀ x ∈ d, plainChar x = true)
    (hb : ∀ x ∈ b, plainChar x = true) :
    create_pdf_resume (mkReply n c t o loc r d b)
      = { name := n, contact := c
        , sections := [{ title := t, subs := [], projects := []
                       , bullets := [b], skills := [] }] } := by
  unfold create_pdf_resume
  rw [mkReply_name n c t o loc r d b hn hnne]
  rw [mkReply_contact n c t o loc r d b hn hc hcne]
  rw [mkReply_sections n c t o loc r d b hn hc ht htne ho hl hr hd hb]
  rw [show (some n).getD (("Name").toList) = n from rfl]
  rw [show (some c).getD ([] : List Char) = c from rfl]
  rw [subAll_id_of matchHrefAt '\\' matchHrefAt_head c
    (plain_imp_ne c hc '\\' (by decide))]
  rw [subAll_id_of matchDollarPipeAt '$' matchDollarPipeAt_head c
    (plain_imp_ne c hc '$' (by decide))]
  simp only [List.map_cons, List.map_nil]
  unfold renderSection
  rw [mkBody_subs o loc r d b ho hl hr hd hb]
  rw [mkBody_projects o loc r d b ho hl hr hd hb]
  rw [mkBody_items o loc r d b ho hl hr hd hb]
  rw [mkBody_skills o loc r d b ho hl hr hd hb]
  simp only [List.map_nil, ite_self]

theorem infix_append_left {l a : List Char} (b : List Char) (h : l <:+: a) :
    l <:+: a ++ b :=
  h.trans (List.prefix_append a b).isInfix

theorem infix_append_right {l b : List Char} (a : List Char) (h : l <:+: b) :
    l <:+: a ++ b :=
  h.trans (List.suffix_append a b).isInfix

theorem not_infix_of_cannotStart {lit a : List Char} (hne : lit ≠ [])
    (h : CannotStart lit a) : ¬ (lit <:+: a) := by
  intro hinf
  obtain ⟨t2, hp, hs⟩ := List.infix_iff_prefix_suffix.mp hinf
  have ht2 : t2 ≠ [] := by
    intro he
    subst he
    exact hne (List.prefix_nil.mp hp)
  exact (h t2 ht2 hs).1 hp

end ResumeOpt

/-- C3 counterexample: the claim says `indentation_style = "spaces"` holds if
and only if some line break is followed by two or more space characters.  On
the text `"a\n\t\tb"` the source's `\n\s{2,}` test fires (a tab is `\s`), so
the analyzer reports "spaces", yet no line break is followed by two spaces:
by the claim it should report "tabs". -/
theorem c3_indentation_counterexample :
    (ResumeOpt.analyze_resume_structure ("a\n\t\tb").toList).indentation_style
      = "spaces"
    ∧ ¬ ResumeOpt.specSpacesProp ("a\n\t\tb").toList
    ∧ ResumeOpt.specTabProp ("a\n\t\tb").toList := by
  refine ⟨by decide, ?_, ?_⟩
  · intro h
    have := (ResumeOpt.specSpacesB_iff _).mpr h
    revert this
    decide
  · exact (ResumeOpt.hasNLTab_iff _).mp (by decide)

/-- C3 amended: `indentation_style` is "spaces" iff some line break is
followed by two or more whitespace characters (any mix of spaces, tabs, or
further line breaks, Python's `\s`); otherwise "tabs" iff some line break is
followed by a tab; otherwise "unknown".  Two-or-more literal spaces after a
line break still force "spaces" (the priority direction claimed by the spec
survives). -/
theorem c3_indentation_amended (t : List Char) :
    ((ResumeOpt.analyze_resume_structure t).indentation_style = "spaces"
      ↔ ResumeOpt.codeSpacesProp t)
    ∧ ((ResumeOpt.analyze_resume_structure t).indentation_style = "tabs"
      ↔ (¬ ResumeOpt.codeSpacesProp t ∧ ResumeOpt.specTabProp t))
    ∧ ((ResumeOpt.analyze_resume_structure t).indentation_style = "unknown"
      ↔ (¬ ResumeOpt.codeSpacesProp t ∧ ¬ ResumeOpt.specTabProp t))
    ∧ (ResumeOpt.specSpacesProp t →
        (ResumeOpt.analyze_resume_structure t).indentation_style = "spaces") := by
  have hs := ResumeOpt.hasNLWS2_iff t
  have ht := ResumeOpt.hasNLTab_iff t
  have hstyle : (ResumeOpt.analyze_resume_structure t).indentation_style =
      (if ResumeOpt.hasNLWS2 t then "spaces"
       else if ResumeOpt.hasNLTab t then "tabs" else "unknown") := rfl
  have hsp : ResumeOpt.specSpacesProp t → ResumeOpt.codeSpacesProp t := by
    rintro ⟨pre, post, rfl⟩
    exact ⟨pre, ' ', ' ', post, rfl, by decide, by decide⟩
  rw [hstyle]
  by_cases h1 : ResumeOpt.hasNLWS2 t = true
  · rw [if_pos h1]
    have hc := hs.mp h1
    exact ⟨⟨fun _ => hc, fun _ => rfl⟩,
           ⟨fun h => absurd h (by decide), fun h => (h.1 hc).elim⟩,
           ⟨fun h => absurd h (by decide), fun h => (h.1 hc).elim⟩,
           fun _ => rfl⟩
  · have hnc : ¬ ResumeOpt.codeSpacesProp t := fun hc => h1 (hs.mpr hc)
    rw [if_neg h1]
    by_cases h2 : ResumeOpt.hasNLTab t = true
    · rw [if_pos h2]
      have htt := ht.mp h2
      exact ⟨⟨fun h => absurd h (by decide), fun hc => (hnc hc).elim⟩,
             ⟨fun _ => ⟨hnc, htt⟩, fun _ => rfl⟩,
             ⟨fun h => absurd h (by decide), fun h => (h.2 htt).elim⟩,
             fun hsp2 => (hnc (hsp hsp2)).elim⟩
    · have hnt : ¬ ResumeOpt.specTabProp t := fun hc => h2 (ht.mpr hc)
      rw [if_neg h2]
      exact ⟨⟨fun h => absurd h (by decide), fun hc => (hnc hc).elim⟩,
             ⟨fun h => absurd h (by decide), fun hh => (hnt hh.2).elim⟩,
             ⟨fun _ => ⟨hnc, hnt⟩, fun _ => rfl⟩,
             fun hsp2 => (hnc (hsp hsp2)).elim⟩

/-- C8 counterexample: the claim says the extractor returns the page texts
joined with a newline separator between consecutive pages and nothing else
appended.  For a single page with text `"a"` the loop produces `"a\n"` — a
newline is appended after the last page as well. -/
theorem c8_extract_counterexample :
    ResumeOpt.extract_pages_text [("a").toList] = ("a\n").toList
    ∧ List.intercalate ['\n'] [("a").toList] = ("a").toList
    ∧ ResumeOpt.extract_pages_text [("a").toList]
        ≠ List.intercalate ['\n'] [("a").toList] := by
  refine ⟨by decide, by decide, by decide⟩

/-- C8 amended: the extractor returns the concatenation of the page texts
with a newline appended after every page (so a separator between consecutive
pages plus one trailing newline). -/
theorem c8_extract_amended (pages : List (List Char)) :
    ResumeOpt.extract_pages_text pages
      = (pages.map (fun p => p ++ ['\n'])).flatten := by
  have go : ∀ (acc : List Char),
      pages.foldl (fun t p => t ++ p ++ ['\n']) acc
        = acc ++ (pages.map (fun p => p ++ ['\n'])).flatten := by
    induction pages with
    | nil => intro acc; simp
    | cons p ps ih =>
      intro acc
      simp only [List.foldl_cons, List.map_cons, List.flatten_cons, ih]
      simp [List.append_assoc]
  simpa [ResumeOpt.extract_pages_text] using go []

/-- C4: for every text and every name in the fixed ten-entry vocabulary, the
name appears in the Structure Analyzer's section list iff it occurs in the
text as a case-insensitive whole word; and the produced list is a sublist of
the vocabulary, hence ordered by the vocabulary's own fixed order rather than
by position in the document. -/
theorem c4_sections_whole_word (t w : List Char)
    (hw : w ∈ ResumeOpt.common_sections) :
    (w ∈ (ResumeOpt.analyze_resume_structure t).sections
      ↔ ResumeOpt.occursWholeWordCI w t)
    ∧ (ResumeOpt.analyze_resume_structure t).sections.Sublist
        ResumeOpt.common_sections := by
  have hne : w ≠ [] := by
    have hall : ∀ x ∈ ResumeOpt.common_sections, x ≠ [] := by decide
    exact hall w hw
  constructor
  · have hsec : (ResumeOpt.analyze_resume_structure t).sections =
        ResumeOpt.common_sections.filter
          (fun v => ResumeOpt.wordSearch v none t) := rfl
    rw [hsec, List.mem_filter]
    constructor
    · rintro ⟨-, hsearch⟩
      obtain ⟨pre, mid, post, heq, hmap, hpre, hpost⟩ :=
        (ResumeOpt.wordSearch_iff w hne none t).mp hsearch
      refine ⟨pre, mid, post, heq, hmap, ?_, hpost⟩
      rcases hpre with ⟨rfl, -⟩ | h
      · exact Or.inl rfl
      · exact Or.inr h
    · rintro ⟨pre, mid, post, heq, hmap, hpre, hpost⟩
      refine ⟨hw, (ResumeOpt.wordSearch_iff w hne none t).mpr
        ⟨pre, mid, post, heq, hmap, ?_, hpost⟩⟩
      rcases hpre with rfl | h
      · exact Or.inl ⟨rfl, rfl⟩
      · exact Or.inr h
  · exact List.filter_sublist _

/-- Witness for C4 at a concrete vocabulary entry and text. -/
theorem c4_sections_whole_word_witness :
    (("EDUCATION").toList ∈ ResumeOpt.common_sections)
    ∧ ((("EDUCATION").toList ∈
        (ResumeOpt.analyze_resume_structure
          ("Work history and education details").toList).sections
      ↔ ResumeOpt.occursWholeWordCI ("EDUCATION").toList
          ("Work history and education details").toList)
    ∧ (ResumeOpt.analyze_resume_structure
        ("Work history and education details").toList).sections.Sublist
        ResumeOpt.common_sections) :=
  ⟨by decide, c4_sections_whole_word _ _ (by decide)⟩

/-- C5: with the `GEMINI_API_KEY` environment variable absent, the
optimization step returns absence, prints exactly the two remediation
messages of src/main.py lines 154-155, and attempts no network call — for
every possible behavior of the remote service. -/
theorem c5_missing_key (serviceReply : Option (List Char)) :
    (ResumeOpt.optimize_resume_with_gemini none serviceReply).result = none
    ∧ (ResumeOpt.optimize_resume_with_gemini none serviceReply).printed =
        ResumeOpt.missingKeyMessages
    ∧ (ResumeOpt.optimize_resume_with_gemini none serviceReply).networkAttempted
        = false := by
  refine ⟨?_, ?_, ?_⟩ <;> rfl

/-- C2 counterexample: the claim says every run of `main` terminates normally
with exit status 0 — including a job-description file whose bytes are not
valid UTF-8.  But the read at src/main.py lines 59-61 has no exception
handler: with invalid UTF-8 bytes a `UnicodeDecodeError` propagates out of
`main` and the process exits non-zero. -/
theorem c2_exit_counterexample :
    ResumeOpt.mainRun c2BadEnv = ResumeOpt.RunOutcome.raised "UnicodeDecodeError"
    ∧ ResumeOpt.mainRun c2BadEnv ≠ ResumeOpt.RunOutcome.finished := by
  exact ⟨rfl, by decide⟩

/-- C2 amended: in every modelled configuration in which the job-description
file decodes as UTF-8, `main` terminates normally (exit status 0); all other
modelled failures are caught where they occur and reported as console
messages only. -/
theorem c2_exit_amended (e : ResumeOpt.MainEnv) (h : e.jobDescUtf8 = true) :
    ResumeOpt.mainRun e = ResumeOpt.RunOutcome.finished := by
  unfold ResumeOpt.mainRun
  rw [h]
  split
  · rfl
  · split
    · rfl
    · split
      · rfl
      · split
        · rfl
        · split
          · rfl
          · simp only [Bool.not_true, Bool.false_eq_true, if_false]
            split
            · rfl
            · split <;> rfl

/-- Witness for the amended C2 at a fully healthy configuration. -/
theorem c2_exit_amended_witness :
    ({ c2BadEnv with jobDescUtf8 := true } : ResumeOpt.MainEnv).jobDescUtf8 = true
    ∧ ResumeOpt.mainRun { c2BadEnv with jobDescUtf8 := true }
        = ResumeOpt.RunOutcome.finished :=
  ⟨rfl, c2_exit_amended { c2BadEnv with jobDescUtf8 := true } rfl⟩

/-- C7: whatever the reply, after the orchestrator writes it to the `.tex`
artifact and the renderer performs its own writes (the idempotent re-save
with identical content, plus the rendered artifact at the distinct
destination path), the `.tex` artifact still holds the reply verbatim — in
particular a failed or successful render never changes it. -/
theorem c7_tex_artifact_verbatim (s : ResumeOpt.FileStore)
    (texPath outputPath reply pdfBytes : List Char)
    (h : texPath ≠ outputPath) :
    ResumeOpt.getFile
      (ResumeOpt.persistPhase s texPath outputPath reply pdfBytes) texPath
      = some reply := by
  unfold ResumeOpt.persistPhase ResumeOpt.create_pdf_writes
  rw [ResumeOpt.getFile_setFile_other _ _ _ _ (fun hh => h hh.symm)]
  split
  · exact ResumeOpt.getFile_setFile_same _ _ _
  · by_cases hq :
      ResumeOpt.strReplace (".pdf").toList (".tex").toList outputPath = texPath
    · rw [hq]
      exact ResumeOpt.getFile_setFile_same _ _ _
    · rw [ResumeOpt.getFile_setFile_other _ _ _ _ hq]
      exact ResumeOpt.getFile_setFile_same _ _ _

/-- Witness for C7 at the concrete paths `main` produces. -/
theorem c7_tex_artifact_verbatim_witness :
    (("newresume/optimized_cv.tex").toList ≠ ("newresume/optimized_cv.pdf").toList)
    ∧ ResumeOpt.getFile
        (ResumeOpt.persistPhase [] ("newresume/optimized_cv.tex").toList
          ("newresume/optimized_cv.pdf").toList ("reply text").toList
          ("%PDF bytes").toList)
        ("newresume/optimized_cv.tex").toList
        = some ("reply text").toList :=
  ⟨by decide, c7_tex_artifact_verbatim [] _ _ _ _ (by decide)⟩

/-- C1: any reply text containing none of the template's marker literals is
rendered without any exception into the placeholder artifact — name cell
`"Name"`, empty contact line, and zero section rows.  (In the source any
raised exception would instead be caught and reported as absence; the pure
parsing pipeline raises nothing at all on such input.) -/
theorem c1_renderer_no_markers (content : List Char)
    (h : ∀ m ∈ ResumeOpt.templateMarkers, ¬ (m <:+: content)) :
    ResumeOpt.create_pdf_resume content =
      { name := ("Name").toList, contact := [], sections := [] } := by
  have hn : ResumeOpt.scanFor ResumeOpt.matchNameAt content = none :=
    ResumeOpt.scanFor_eq_none _ _ ResumeOpt.matchNameAt_imp content
      (h _ (by simp [ResumeOpt.templateMarkers]))
  have hc : ResumeOpt.scanFor ResumeOpt.matchContactAt content = none :=
    ResumeOpt.scanFor_eq_none _ _ ResumeOpt.matchContactAt_imp content
      (h _ (by simp [ResumeOpt.templateMarkers]))
  have hs : ResumeOpt.scanAll ResumeOpt.matchSectionAt content = [] :=
    ResumeOpt.scanAll_eq_nil _ _ ResumeOpt.matchSectionAt_imp content
      (h _ (by simp [ResumeOpt.templateMarkers]))
  unfold ResumeOpt.create_pdf_resume
  rw [hn, hc, hs]
  simp [ResumeOpt.subAll]

/-- Witness for C1 on a concrete marker-free reply. -/
theorem c1_renderer_no_markers_witness :
    (∀ m ∈ ResumeOpt.templateMarkers,
      ¬ (m <:+: ("Dear hiring manager, plain prose with no markup.").toList))
    ∧ ResumeOpt.create_pdf_resume
        ("Dear hiring manager, plain prose with no markup.").toList =
      { name := ("Name").toList, contact := [], sections := [] } :=
  ⟨by decide, c1_renderer_no_markers _ (by decide)⟩

/-- C6: every reply that exactly matches the template grammar — one document
header with name `n` and contact line `c`, one section with title `t`
containing one sub-heading block (`o`, `loc`, `r`, `d`) and one bullet item
`b`, all fields plain text with the header fields nonempty — renders (no
absence) into an artifact whose drawn text is nonempty and contains the
header's name and the bullet's text as substrings. -/
theorem c6_template_roundtrip (n c t o loc r d b : List Char)
    (hn : ∀ x ∈ n, ResumeOpt.plainChar x = true) (hnne : n ≠ [])
    (hc : ∀ x ∈ c, ResumeOpt.plainChar x = true) (hcne : c ≠ [])
    (ht : ∀ x ∈ t, ResumeOpt.plainChar x = true) (htne : t ≠ [])
    (ho : ∀ x ∈ o, ResumeOpt.plainChar x = true)
    (hl : ∀ x ∈ loc, ResumeOpt.plainChar x = true)
    (hr : ∀ x ∈ r, ResumeOpt.plainChar x = true)
    (hd : ∀ x ∈ d, ResumeOpt.plainChar x = true)
    (hb : ∀ x ∈ b, ResumeOpt.plainChar x = true) :
    ResumeOpt.docText
        (ResumeOpt.create_pdf_resume (ResumeOpt.mkReply n c t o loc r d b)) ≠ []
    ∧ n <:+: ResumeOpt.docText
        (ResumeOpt.create_pdf_resume (ResumeOpt.mkReply n c t o loc r d b))
    ∧ b <:+: ResumeOpt.docText
        (ResumeOpt.create_pdf_resume (ResumeOpt.mkReply n c t o loc r d b)) := by
  rw [ResumeOpt.create_pdf_resume_mkReply n c t o loc r d b
    hn hnne hc hcne ht htne ho hl hr hd hb]
  have hdt : ResumeOpt.docText
      { name := n, contact := c
      , sections := [{ title := t, subs := [], projects := []
                     , bullets := [b], skills := [] }] }
      = n ++ (c ++ (t ++ ('•' :: b))) := by
    unfold ResumeOpt.docText ResumeOpt.sectionText
    simp
  rw [hdt]
  refine ⟨?_, ?_, ?_⟩
  · cases n with
    | nil => exact absurd rfl hnne
    | cons a as => simp
  · exact (List.prefix_append n _).isInfix
  · exact ⟨n ++ (c ++ (t ++ ['•'])), [], by simp [List.append_assoc]⟩

/-- Witness for C6 at concrete template-grammar field values. -/
theorem c6_template_roundtrip_witness :
    ((∀ x ∈ ("Jane Doe").toList, ResumeOpt.plainChar x = true)
      ∧ ("Jane Doe").toList ≠ []
      ∧ (∀ x ∈ ("123-456-7890, jane@x.com").toList, ResumeOpt.plainChar x = true)
      ∧ ("123-456-7890, jane@x.com").toList ≠ []
      ∧ (∀ x ∈ ("Experience").toList, ResumeOpt.plainChar x = true)
      ∧ ("Experience").toList ≠ []
      ∧ (∀ x ∈ ("Acme Corp").toList, ResumeOpt.plainChar x = true)
      ∧ (∀ x ∈ ("Austin, TX").toList, ResumeOpt.plainChar x = true)
      ∧ (∀ x ∈ ("Engineer").toList, ResumeOpt.plainChar x = true)
      ∧ (∀ x ∈ ("2020 - 2021").toList, ResumeOpt.plainChar x = true)
      ∧ (∀ x ∈ ("Did a thing well").toList, ResumeOpt.plainChar x = true))
    ∧ (ResumeOpt.docText (ResumeOpt.create_pdf_resume
        (ResumeOpt.mkReply ("Jane Doe").toList
          ("123-456-7890, jane@x.com").toList ("Experience").toList
          ("Acme Corp").toList ("Austin, TX").toList ("Engineer").toList
          ("2020 - 2021").toList ("Did a thing well").toList)) ≠ []
      ∧ ("Jane Doe").toList <:+: ResumeOpt.docText (ResumeOpt.create_pdf_resume
        (ResumeOpt.mkReply ("Jane Doe").toList
          ("123-456-7890, jane@x.com").toList ("Experience").toList
          ("Acme Corp").toList ("Austin, TX").toList ("Engineer").toList
          ("2020 - 2021").toList ("Did a thing well").toList))
      ∧ ("Did a thing well").toList <:+: ResumeOpt.docText
        (ResumeOpt.create_pdf_resume
        (ResumeOpt.mkReply ("Jane Doe").toList
          ("123-456-7890, jane@x.com").toList ("Experience").toList
          ("Acme Corp").toList ("Austin, TX").toList ("Engineer").toList
          ("2020 - 2021").toList ("Did a thing well").toList))) :=
  ⟨⟨by decide, by decide, by decide, by decide, by decide, by decide, by decide,
    by decide, by decide, by decide, by decide⟩,
   c6_template_roundtrip _ _ _ _ _ _ _ _ (by decide) (by decide) (by decide)
     (by decide) (by decide) (by decide) (by decide) (by decide) (by decide)
     (by decide) (by decide)⟩

/-- C9 (code evidence): the prompt f-string contains the replacement field
`{tabular*}` whose inner text is not a Python identifier (nor any valid
expression), while a genuine interpolation field such as
`{job_description}` is one.  Python therefore rejects src/main.py with
`SyntaxError: f-string: invalid syntax` at line 202 before any code runs, so
the instruction string the claim speaks about is never assembled. -/
theorem c9_prompt_fstring_invalid :
    (("\x7btabular*\x7d").toList <:+: ResumeOpt.promptFStringBody)
    ∧ ResumeOpt.isPyIdentifier (("tabular*").toList) = false
    ∧ (("\x7bjob_description\x7d").toList <:+: ResumeOpt.promptFStringBody)
    ∧ ResumeOpt.isPyIdentifier (("job_description").toList) = true := by
  refine ⟨?_, by decide, ?_, by decide⟩
  · exact ResumeOpt.infix_append_left _ (ResumeOpt.infix_append_left _
      (ResumeOpt.infix_append_left _ (ResumeOpt.infix_append_left _
      (ResumeOpt.infix_append_left _ (ResumeOpt.infix_append_left _
      (ResumeOpt.infix_append_left _ (ResumeOpt.infix_append_left _
      (ResumeOpt.infix_append_left _ (ResumeOpt.infix_append_left _
      (ResumeOpt.infix_append_left _ (ResumeOpt.infix_append_right _
        (by decide))))))))))))
  · exact ResumeOpt.infix_append_left _ (ResumeOpt.infix_append_left _
      (ResumeOpt.infix_append_left _ (ResumeOpt.infix_append_left _
      (ResumeOpt.infix_append_left _ (ResumeOpt.infix_append_left _
      (ResumeOpt.infix_append_left _ (ResumeOpt.infix_append_left _
      (ResumeOpt.infix_append_left _ (ResumeOpt.infix_append_left _
      (ResumeOpt.infix_append_left _ (ResumeOpt.infix_append_left _
        (by decide))))))))))))

/-- C10 counterexample: the claim says the extracted name is embedded in the
instruction.  The prompt f-string text contains no replacement field opening
`{name`, so the `name` variable computed at src/main.py lines 165-166 is
never interpolated into the instruction (it is dead code; likewise the
f-string is itself ill-formed, see `c9_prompt_fstring_invalid`). -/
theorem c10_name_not_embedded :
    ¬ (("\x7bname").toList <:+: ResumeOpt.promptFStringBody) := by
  apply ResumeOpt.not_infix_of_cannotStart (by decide)
  unfold ResumeOpt.promptFStringBody
  repeat' apply ResumeOpt.cannotStart_append
  all_goals exact ResumeOpt.cannotStart_of_noStartB (by decide)

/-- C10 amended: the leading-name extraction pattern does treat newlines as
part of the name run — on `"Jane Doe\nAbc Def\n123"` the extracted name is
`"Jane Doe\nAbc Def"`, which includes the words of the second line and is
not just the leading line — but that name is only computed, not embedded in
any instruction. -/
theorem c10_name_extraction_amended :
    ResumeOpt.extract_name (("Jane Doe\nAbc Def\n123").toList)
      = ("Jane Doe\nAbc Def").toList
    ∧ ("Abc Def").toList <:+:
        ResumeOpt.extract_name (("Jane Doe\nAbc Def\n123").toList)
    ∧ ResumeOpt.extract_name (("Jane Doe\nAbc Def\n123").toList)
        ≠ ("Jane Doe").toList := by
  refine ⟨by decide, by decide, by decide⟩

